import Mathlib

/-!
Verification of the `windowToggle` operator
(`src/internal/operators/windowToggle.ts`).

The operator is embedded as an event-driven state machine.  One
subscription to the combined output is modelled by a state `St` holding
the registry of open windows (`windows`, the `Subject<T>[]` array of the
source), the id generator for windows, the set of windows whose closing
notifier subscription is currently active (`closingActive`, one entry per
live `closingSubscription`), the output subscriber's stopped flag, the
`Subject` flags of every window ever created, and a history `hist` of all
externally observable actions (values/terminals delivered to windows and
emissions/terminals on the output stream) in the order they were
performed.

Events (`Ev`) are the callbacks that the single-threaded runtime can
deliver to the operator: a value / completion / error on the openings
stream, a value / completion / error on the source stream, a value /
completion / error on one window's closing notifier, and teardown of the
output subscription.  `step` is the direct translation of the operator's
callback bodies; `runFrom`/`runTrace` run a whole trace of events.
-/

set_option maxHeartbeats 1000000

namespace WindowToggle

/-- Error values: user errors carried by streams, plus the distinguished
unsubscription error that the multicast channel (`Subject`) raises for a
consumer subscribing after the subject was unsubscribed. -/
inductive Err where
  | user (n : Nat)
  | objectUnsubscribed
deriving DecidableEq

/-- Externally observable actions of one run: deliveries to a window's
consumers (`wNext`, `wComplete`, `wError`) and signals on the output
stream (`emit` of a window, `outComplete`, `outError`).  A forced
unsubscription of a window is silent to its existing consumers and hence
records no action. -/
inductive Act (T : Type) where
  | wNext (w : Nat) (v : T)
  | wComplete (w : Nat)
  | wError (w : Nat) (e : Err)
  | emit (w : Nat)
  | outComplete
  | outError (e : Err)
deriving DecidableEq

/-- Terminal flags of one window's `Subject`, mirroring the fields
`isStopped`, `closed`, `hasError`, `thrownError` of the external
`Subject` class. -/
structure Flags where
  isStopped : Bool := false
  closed : Bool := false
  hasError : Bool := false
  thrownError : Err := .user 0
deriving DecidableEq

/-- State of one subscription to the operator's output.  `windows` is the
`Subject<T>[]` registry (window ids in insertion order), `nextId` the id
the next created window will get, `closingActive` the ids whose
`closingSubscription` currently holds a live subscription to the window's
closing notifier, `outStopped` the output subscriber's stopped flag,
`subj` the `Subject` flags of each window id, `hist` the observable
history. -/
@[ext]
structure St (T : Type) where
  windows : List Nat := []
  nextId : Nat := 0
  closingActive : List Nat := []
  outStopped : Bool := false
  subj : Nat → Flags := fun _ => {}
  hist : List (Act T) := []

/-- The state at subscription time: empty registry, no window created,
nothing observed. -/
def initSt (T : Type) : St T := {}

/-- Events the runtime can deliver to the operator's three listeners and
the teardown hook.  `closeSignal w` / `closeDone w` / `closeErrorEv w e`
are a next / complete / error arriving on the closing notifier that was
derived for window `w`. -/
inductive Ev (T O : Type) where
  | openNext (v : O)
  | openComplete
  | openError (e : Nat)
  | srcNext (v : T)
  | srcComplete
  | srcError (e : Nat)
  | closeSignal (w : Nat)
  | closeDone (w : Nat)
  | closeErrorEv (w : Nat) (e : Nat)
  | cancel
deriving DecidableEq

variable {T O : Type}

/-- Modelled from the spec: the external multicast channel (`Subject`,
not under the given sources) delivers `next` to consumers only while the
subject is not stopped; the subject's own flags do not change. -/
def subjNextSt (w : Nat) (v : T) (s : St T) : St T :=
  if (s.subj w).isStopped then s
  else { s with hist := s.hist ++ [.wNext w v] }

/-- Modelled from the spec: the external `Subject.complete` is a no-op on
a stopped subject, otherwise stops it and signals completion to its
consumers. -/
def subjCompleteSt (w : Nat) (s : St T) : St T :=
  if (s.subj w).isStopped then s
  else
    { s with
      subj := Function.update s.subj w { s.subj w with isStopped := true },
      hist := s.hist ++ [.wComplete w] }

/-- Modelled from the spec: the external `Subject.error` is a no-op on a
stopped subject, otherwise stops it, records the error and signals it to
its consumers. -/
def subjErrorSt (w : Nat) (e : Err) (s : St T) : St T :=
  if (s.subj w).isStopped then s
  else
    { s with
      subj := Function.update s.subj w
        { s.subj w with isStopped := true, hasError := true, thrownError := e },
      hist := s.hist ++ [.wError w e] }

/-- Modelled from the spec: the external `Subject.unsubscribe` marks the
subject stopped and closed without signalling anything to its existing
consumers. -/
def subjUnsubSt (w : Nat) (s : St T) : St T :=
  { s with
    subj := Function.update s.subj w
      { s.subj w with isStopped := true, closed := true } }

/-- Modelled from the spec: `subscriber.next` on the external output
subscriber emits a window downstream unless the subscriber is already
stopped (a stream delivers at most one terminal event and nothing after
it). -/
def outNextSt (w : Nat) (s : St T) : St T :=
  if s.outStopped then s else { s with hist := s.hist ++ [.emit w] }

/-- Modelled from the spec: `subscriber.complete` on the external output
subscriber. -/
def outCompleteSt (s : St T) : St T :=
  if s.outStopped then s
  else { s with hist := s.hist ++ [.outComplete], outStopped := true }

/-- Modelled from the spec: `subscriber.error` on the external output
subscriber. -/
def outErrorSt (e : Err) (s : St T) : St T :=
  if s.outStopped then s
  else { s with hist := s.hist ++ [.outError e], outStopped := true }

/-- Lines 90–94: `closeWindow` — remove the window from the registry
(`arrRemove`, removal of the first occurrence by identity), complete its
subject, and unsubscribe its `closingSubscription`. -/
def closeWindow (w : Nat) (s : St T) : St T :=
  let s₁ := { s with windows := s.windows.erase w }
  let s₂ := subjCompleteSt w s₁
  { s₂ with closingActive := s₂.closingActive.erase w }

/-- Lines 70–72: the drain loop of `handleError` — `while (0 <
windows.length) windows.shift()!.error(err)`. -/
def drainError (e : Err) (s : St T) : St T :=
  { s.windows.foldl (fun st u => subjErrorSt u e st) s with windows := [] }

/-- Lines 69–74: `handleError` — error every window in the registry,
oldest first, then error the output. -/
def handleError (e : Err) (s : St T) : St T :=
  outErrorSt e (drainError e s)

/-- Lines 129–131: the drain loop of the source-complete callback —
`while (0 < windows.length) windows.shift()!.complete()`. -/
def drainComplete (s : St T) : St T :=
  { s.windows.foldl (fun st u => subjCompleteSt u st) s with windows := [] }

/-- Lines 140–142: the teardown registered on the source subscriber —
`while (0 < windows.length) windows.shift()!.unsubscribe()`. -/
def teardown (s : St T) : St T :=
  { s.windows.foldl (fun st u => subjUnsubSt u st) s with windows := [] }

/-- Lines 86–108: the openings `next` callback.  `sel v = some e` means
that `from(closingSelector(v))` throws error `e` synchronously;
`sel v = none` means the closing notifier is obtained normally (its later
emissions appear in the trace as `closeSignal` / `closeDone` /
`closeErrorEv` events for the new window's id).  In source order: create
and register the window, invoke the closing selector (on failure run
`handleError` and return), emit the window downstream, then subscribe to
the closing notifier (record the live closing association). -/
def openHandler (sel : O → Option Nat) (v : O) (s : St T) : St T :=
  let w := s.nextId
  let s₁ := { s with windows := s.windows ++ [w], nextId := w + 1 }
  match sel v with
  | some e => handleError (.user e) s₁
  | none =>
    let s₂ := outNextSt w s₁
    { s₂ with closingActive := s₂.closingActive ++ [w] }

/-- Lines 118–124: the source `next` callback — fan the value out to a
copy (`windows.slice()`) of the registry taken when the value arrives. -/
def fanOut (v : T) (s : St T) : St T :=
  s.windows.foldl (fun st u => subjNextSt u v st) s

/-- One callback delivery.  Every callback of an already-terminated
subscription is a no-op: after the output subscriber's terminal event (or
teardown) the whole subscription tree is unsubscribed, so no further
event reaches the operator's listeners.

* `openNext`: the openings handler (lines 86–108).
* `openComplete`: `noop` (line 110).
* `openError`: the openings subscriber passes no error handler (line
  109), so the error goes straight to the destination subscriber; the
  subsequent unsubscription runs the teardown, which unsubscribes the
  remaining window subjects.
* `srcNext` / `srcComplete` / `srcError`: lines 118–133 — fan-out, the
  complete-drain followed by output completion, and `handleError`.
* `closeSignal` / `closeDone`: `closeWindow` (lines 90–95), reachable
  only while the window's closing subscription is live.
* `closeErrorEv`: `handleError` for a closing notifier error (line 95).
* `cancel`: teardown of the output subscription (lines 134–143): nothing
  is signalled downstream; every remaining window subject is
  unsubscribed.  (On the terminal paths above the same teardown also
  runs, but it finds the registry already drained.) -/
def step (sel : O → Option Nat) (s : St T) : Ev T O → St T
  | .openNext v => if s.outStopped then s else openHandler sel v s
  | .openComplete => s
  | .openError e => if s.outStopped then s else teardown (outErrorSt (.user e) s)
  | .srcNext v => if s.outStopped then s else fanOut v s
  | .srcComplete => if s.outStopped then s else outCompleteSt (drainComplete s)
  | .srcError e => if s.outStopped then s else handleError (.user e) s
  | .closeSignal w =>
    if s.outStopped then s
    else if w ∈ s.closingActive then closeWindow w s else s
  | .closeDone w =>
    if s.outStopped then s
    else if w ∈ s.closingActive then closeWindow w s else s
  | .closeErrorEv w e =>
    if s.outStopped then s
    else if w ∈ s.closingActive then handleError (.user e) s else s
  | .cancel => if s.outStopped then s else teardown { s with outStopped := true }

/-- Run a trace of events from a given state. -/
def runFrom (sel : O → Option Nat) : St T → List (Ev T O) → St T
  | s, [] => s
  | s, e :: es => runFrom sel (step sel s e) es

/-- Run a trace of events from the subscription-time state. -/
def runTrace (sel : O → Option Nat) (es : List (Ev T O)) : St T :=
  runFrom sel (initSt T) es

/-- What a consumer subscribing to a window's read-only view after the
fact immediately receives: an unsubscription error if the subject was
unsubscribed, the recorded error if it errored, an immediate completion
if it completed, and nothing (it waits for future signals) otherwise. -/
inductive LateSig where
  | lerror (e : Err)
  | lcomplete
deriving DecidableEq

/-- Modelled from the spec: what the external `Subject.subscribe` gives a
late subscriber, from the subject's finalized-status flags (an
unsubscribed channel hands late subscribers an immediate error). -/
def lateSubscribe (f : Flags) : Option LateSig :=
  if f.closed then some (.lerror .objectUnsubscribed)
  else if f.hasError then some (.lerror f.thrownError)
  else if f.isStopped then some .lcomplete
  else none

/-- The values a window's consumers received, in order, read off the
history. -/
def wvals (w : Nat) (h : List (Act T)) : List T :=
  h.filterMap fun a =>
    match a with
    | .wNext u v => if u = w then some v else none
    | _ => none

/-- The window ids emitted on the output stream, in order. -/
def emits (h : List (Act T)) : List Nat :=
  h.filterMap fun a =>
    match a with
    | .emit u => some u
    | _ => none

/-- The number of events of a trace, starting from `s`, after which
window `w` has been created (its opening step): the first index at which
`w < nextId` holds.  `none` when `w` is never created during the
trace. -/
def openedAtFrom (sel : O → Option Nat) (w : Nat) : St T → List (Ev T O) → Option Nat
  | _, [] => none
  | s, e :: es =>
    if w < (step sel s e).nextId then some 0
    else (openedAtFrom sel w (step sel s e) es).map (· + 1)

/-- The index of the event of a trace, starting from `s`, that closed
window `w`: the first index after which `w` has been created but is no
longer in the registry.  `none` when `w` is still open (or never created)
at the end of the trace. -/
def closedAtFrom (sel : O → Option Nat) (w : Nat) : St T → List (Ev T O) → Option Nat
  | _, [] => none
  | s, e :: es =>
    if w < (step sel s e).nextId ∧ w ∉ (step sel s e).windows then some 0
    else (closedAtFrom sel w (step sel s e) es).map (· + 1)

/-- The opening step of window `w` in a full run. -/
def openedAt (sel : O → Option Nat) (w : Nat) (es : List (Ev T O)) : Option Nat :=
  openedAtFrom sel w (initSt T) es

/-- The closing step of window `w` in a full run. -/
def closedAt (sel : O → Option Nat) (w : Nat) (es : List (Ev T O)) : Option Nat :=
  closedAtFrom sel w (initSt T) es

/-- The payload of a source-value event. -/
def srcVal : Ev T O → Option T
  | .srcNext v => some v
  | _ => none

/-- The source values of a trace that arrive strictly between window
`w`'s opening step and its closing step (all source values after the
opening when `w` is never closed).  In this discrete-event model a value
can never arrive at the very instant of the opening or of the close, so
"inclusive of the opening instant, exclusive of the close instant" is
the half-open span of trace positions `openedAt < i < closedAt`. -/
def intervalVals (sel : O → Option Nat) (w : Nat) (es : List (Ev T O)) : List T :=
  match openedAt sel w es with
  | none => []
  | some j =>
    ((es.drop (j + 1)).take ((closedAt sel w es).getD es.length - (j + 1))).filterMap srcVal

/-- The value (if any) that one event delivers to window `w`: a source
value that arrives while `w` is in the registry of a live
subscription. -/
def collectVal (w : Nat) (s : St T) : Ev T O → List T
  | .srcNext v => if s.outStopped = false ∧ w ∈ s.windows then [v] else []
  | _ => []

/-- The values a run delivers to window `w`, read off the machine. -/
def windowVals (sel : O → Option Nat) (w : Nat) : St T → List (Ev T O) → List T
  | _, [] => []
  | s, e :: es => collectVal w s e ++ windowVals sel w (step sel s e) es

/-- Whether an event is an emission of the openings stream. -/
def isOpenEv : Ev T O → Bool
  | .openNext _ => true
  | _ => false

/-- The number of opening emissions of a trace received strictly before
the first terminal event of the output stream: an opening is counted
exactly when the output subscriber is still unterminated after the
opening has been processed.  (An opening whose own processing terminates
the output — a throwing closing selector — is not before the terminal;
openings arriving after the terminal reach an unsubscribed listener.) -/
def liveOpens (sel : O → Option Nat) : St T → List (Ev T O) → Nat
  | _, [] => 0
  | s, e :: es =>
    (if isOpenEv e && !(step sel s e).outStopped then 1 else 0)
      + liveOpens sel (step sel s e) es

/-- A reentrant action a window's consumer can perform synchronously
while a source value is being fanned out: fire the openings notifier
(opening a new window) or fire the closing notifier of window `w`
(closing it).  The guards are the same as for the corresponding trace
events. -/
inductive ROp (O : Type) where
  | ropen (v : O)
  | rclose (w : Nat)
deriving DecidableEq

/-- Apply one reentrant consumer action. -/
def applyROp (sel : O → Option Nat) (s : St T) : ROp O → St T
  | .ropen v => if s.outStopped then s else openHandler sel v s
  | .rclose w =>
    if s.outStopped then s
    else if w ∈ s.closingActive then closeWindow w s else s

/-- Lines 118–124 with reentrancy made explicit: the source `next`
callback iterates over a copy of the registry taken when the value
arrives; after the value is delivered to a window, that window's
consumers may synchronously run the reentrant actions `reacts w`. -/
def fanOutR (sel : O → Option Nat) (v : T) (reacts : Nat → List (ROp O)) (s : St T) : St T :=
  if s.outStopped then s
  else s.windows.foldl (fun st u => (reacts u).foldl (applyROp sel) (subjNextSt u v st)) s

/-! ### Projection lemmas for the primitive operations -/

@[simp] theorem subjNextSt_windows (w : Nat) (v : T) (s : St T) :
    (subjNextSt w v s).windows = s.windows := by
  unfold subjNextSt; split <;> rfl

@[simp] theorem subjNextSt_nextId (w : Nat) (v : T) (s : St T) :
    (subjNextSt w v s).nextId = s.nextId := by
  unfold subjNextSt; split <;> rfl

@[simp] theorem subjNextSt_closingActive (w : Nat) (v : T) (s : St T) :
    (subjNextSt w v s).closingActive = s.closingActive := by
  unfold subjNextSt; split <;> rfl

@[simp] theorem subjNextSt_outStopped (w : Nat) (v : T) (s : St T) :
    (subjNextSt w v s).outStopped = s.outStopped := by
  unfold subjNextSt; split <;> rfl

@[simp] theorem subjNextSt_subj (w : Nat) (v : T) (s : St T) :
    (subjNextSt w v s).subj = s.subj := by
  unfold subjNextSt; split <;> rfl

theorem subjNextSt_hist (w : Nat) (v : T) (s : St T) :
    (subjNextSt w v s).hist =
      s.hist ++ if (s.subj w).isStopped then [] else [.wNext w v] := by
  unfold subjNextSt; split <;> simp_all

@[simp] theorem subjCompleteSt_windows (w : Nat) (s : St T) :
    (subjCompleteSt w s).windows = s.windows := by
  unfold subjCompleteSt; split <;> rfl

@[simp] theorem subjCompleteSt_nextId (w : Nat) (s : St T) :
    (subjCompleteSt w s).nextId = s.nextId := by
  unfold subjCompleteSt; split <;> rfl

@[simp] theorem subjCompleteSt_closingActive (w : Nat) (s : St T) :
    (subjCompleteSt w s).closingActive = s.closingActive := by
  unfold subjCompleteSt; split <;> rfl

@[simp] theorem subjCompleteSt_outStopped (w : Nat) (s : St T) :
    (subjCompleteSt w s).outStopped = s.outStopped := by
  unfold subjCompleteSt; split <;> rfl

theorem subjCompleteSt_subj_ne (w u : Nat) (s : St T) (h : u ≠ w) :
    (subjCompleteSt w s).subj u = s.subj u := by
  unfold subjCompleteSt; split
  · rfl
  · simp [Function.update_noteq h]

@[simp] theorem subjCompleteSt_isStopped_self (w : Nat) (s : St T) :
    ((subjCompleteSt w s).subj w).isStopped = true := by
  unfold subjCompleteSt; split
  · simpa using ‹(s.subj w).isStopped = true›
  · simp

theorem subjCompleteSt_hist (w : Nat) (s : St T) :
    (subjCompleteSt w s).hist =
      s.hist ++ if (s.subj w).isStopped then [] else [.wComplete w] := by
  unfold subjCompleteSt; split <;> simp_all

@[simp] theorem subjErrorSt_windows (w : Nat) (e : Err) (s : St T) :
    (subjErrorSt w e s).windows = s.windows := by
  unfold subjErrorSt; split <;> rfl

@[simp] theorem subjErrorSt_nextId (w : Nat) (e : Err) (s : St T) :
    (subjErrorSt w e s).nextId = s.nextId := by
  unfold subjErrorSt; split <;> rfl

@[simp] theorem subjErrorSt_closingActive (w : Nat) (e : Err) (s : St T) :
    (subjErrorSt w e s).closingActive = s.closingActive := by
  unfold subjErrorSt; split <;> rfl

@[simp] theorem subjErrorSt_outStopped (w : Nat) (e : Err) (s : St T) :
    (subjErrorSt w e s).outStopped = s.outStopped := by
  unfold subjErrorSt; split <;> rfl

theorem subjErrorSt_subj_ne (w u : Nat) (e : Err) (s : St T) (h : u ≠ w) :
    (subjErrorSt w e s).subj u = s.subj u := by
  unfold subjErrorSt; split
  · rfl
  · simp [Function.update_noteq h]

@[simp] theorem subjErrorSt_isStopped_self (w : Nat) (e : Err) (s : St T) :
    ((subjErrorSt w e s).subj w).isStopped = true := by
  unfold subjErrorSt; split
  · simpa using ‹(s.subj w).isStopped = true›
  · simp

theorem subjErrorSt_hist (w : Nat) (e : Err) (s : St T) :
    (subjErrorSt w e s).hist =
      s.hist ++ if (s.subj w).isStopped then [] else [.wError w e] := by
  unfold subjErrorSt; split <;> simp_all

@[simp] theorem subjUnsubSt_windows (w : Nat) (s : St T) :
    (subjUnsubSt w s).windows = s.windows := rfl

@[simp] theorem subjUnsubSt_nextId (w : Nat) (s : St T) :
    (subjUnsubSt w s).nextId = s.nextId := rfl

@[simp] theorem subjUnsubSt_closingActive (w : Nat) (s : St T) :
    (subjUnsubSt w s).closingActive = s.closingActive := rfl

@[simp] theorem subjUnsubSt_outStopped (w : Nat) (s : St T) :
    (subjUnsubSt w s).outStopped = s.outStopped := rfl

@[simp] theorem subjUnsubSt_hist (w : Nat) (s : St T) :
    (subjUnsubSt w s).hist = s.hist := rfl

theorem subjUnsubSt_subj_ne (w u : Nat) (s : St T) (h : u ≠ w) :
    (subjUnsubSt w s).subj u = s.subj u := by
  simp [subjUnsubSt, Function.update_noteq h]

@[simp] theorem subjUnsubSt_closed_self (w : Nat) (s : St T) :
    ((subjUnsubSt w s).subj w).closed = true := by
  simp [subjUnsubSt]

@[simp] theorem outNextSt_windows (w : Nat) (s : St T) :
    (outNextSt w s).windows = s.windows := by
  unfold outNextSt; split <;> rfl

@[simp] theorem outNextSt_nextId (w : Nat) (s : St T) :
    (outNextSt w s).nextId = s.nextId := by
  unfold outNextSt; split <;> rfl

@[simp] theorem outNextSt_closingActive (w : Nat) (s : St T) :
    (outNextSt w s).closingActive = s.closingActive := by
  unfold outNextSt; split <;> rfl

@[simp] theorem outNextSt_outStopped (w : Nat) (s : St T) :
    (outNextSt w s).outStopped = s.outStopped := by
  unfold outNextSt; split <;> rfl

@[simp] theorem outNextSt_subj (w : Nat) (s : St T) :
    (outNextSt w s).subj = s.subj := by
  unfold outNextSt; split <;> rfl

theorem outNextSt_hist (w : Nat) (s : St T) :
    (outNextSt w s).hist = s.hist ++ if s.outStopped then [] else [.emit w] := by
  unfold outNextSt; split <;> simp_all

@[simp] theorem outCompleteSt_windows (s : St T) :
    (outCompleteSt s).windows = s.windows := by
  unfold outCompleteSt; split <;> rfl

@[simp] theorem outCompleteSt_nextId (s : St T) :
    (outCompleteSt s).nextId = s.nextId := by
  unfold outCompleteSt; split <;> rfl

@[simp] theorem outCompleteSt_closingActive (s : St T) :
    (outCompleteSt s).closingActive = s.closingActive := by
  unfold outCompleteSt; split <;> rfl

@[simp] theorem outCompleteSt_outStopped (s : St T) :
    (outCompleteSt s).outStopped = true := by
  unfold outCompleteSt; split
  · simpa using ‹s.outStopped = true›
  · rfl

@[simp] theorem outCompleteSt_subj (s : St T) :
    (outCompleteSt s).subj = s.subj := by
  unfold outCompleteSt; split <;> rfl

theorem outCompleteSt_hist (s : St T) :
    (outCompleteSt s).hist = s.hist ++ if s.outStopped then [] else [.outComplete] := by
  unfold outCompleteSt; split <;> simp_all

@[simp] theorem outErrorSt_windows (e : Err) (s : St T) :
    (outErrorSt e s).windows = s.windows := by
  unfold outErrorSt; split <;> rfl

@[simp] theorem outErrorSt_nextId (e : Err) (s : St T) :
    (outErrorSt e s).nextId = s.nextId := by
  unfold outErrorSt; split <;> rfl

@[simp] theorem outErrorSt_closingActive (e : Err) (s : St T) :
    (outErrorSt e s).closingActive = s.closingActive := by
  unfold outErrorSt; split <;> rfl

@[simp] theorem outErrorSt_outStopped (e : Err) (s : St T) :
    (outErrorSt e s).outStopped = true := by
  unfold outErrorSt; split
  · simpa using ‹s.outStopped = true›
  · rfl

@[simp] theorem outErrorSt_subj (e : Err) (s : St T) :
    (outErrorSt e s).subj = s.subj := by
  unfold outErrorSt; split <;> rfl

theorem outErrorSt_hist (e : Err) (s : St T) :
    (outErrorSt e s).hist = s.hist ++ if s.outStopped then [] else [.outError e] := by
  unfold outErrorSt; split <;> simp_all

/-- A terminated subscription ignores every further event. -/
theorem step_stopped (sel : O → Option Nat) (s : St T) (e : Ev T O)
    (h : s.outStopped = true) : step sel s e = s := by
  cases e <;> simp [step, h]

/-! ### The drain loops -/

theorem foldErr_windows (e : Err) (L : List Nat) (s : St T) :
    (L.foldl (fun st u => subjErrorSt u e st) s).windows = s.windows := by
  induction L generalizing s with
  | nil => rfl
  | cons a L ih => rw [List.foldl_cons, ih]; simp

theorem foldErr_nextId (e : Err) (L : List Nat) (s : St T) :
    (L.foldl (fun st u => subjErrorSt u e st) s).nextId = s.nextId := by
  induction L generalizing s with
  | nil => rfl
  | cons a L ih => rw [List.foldl_cons, ih]; simp

theorem foldErr_closingActive (e : Err) (L : List Nat) (s : St T) :
    (L.foldl (fun st u => subjErrorSt u e st) s).closingActive = s.closingActive := by
  induction L generalizing s with
  | nil => rfl
  | cons a L ih => rw [List.foldl_cons, ih]; simp

theorem foldErr_outStopped (e : Err) (L : List Nat) (s : St T) :
    (L.foldl (fun st u => subjErrorSt u e st) s).outStopped = s.outStopped := by
  induction L generalizing s with
  | nil => rfl
  | cons a L ih => rw [List.foldl_cons, ih]; simp

theorem foldErr_subj_notmem (e : Err) (L : List Nat) (s : St T) (u : Nat) (hu : u ∉ L) :
    (L.foldl (fun st u => subjErrorSt u e st) s).subj u = s.subj u := by
  induction L generalizing s with
  | nil => rfl
  | cons a L ih =>
    rw [List.foldl_cons, ih _ (fun h => hu (List.mem_cons_of_mem a h))]
    exact subjErrorSt_subj_ne a u e s (fun h => hu (h ▸ List.mem_cons_self a L))

theorem subjErrorSt_isStopped_mono (w u : Nat) (e : Err) (s : St T)
    (h : (s.subj u).isStopped = true) :
    ((subjErrorSt w e s).subj u).isStopped = true := by
  rcases eq_or_ne u w with rfl | hne
  · simp
  · rw [subjErrorSt_subj_ne _ _ _ _ hne]; exact h

theorem foldErr_isStopped_mono (e : Err) (L : List Nat) (s : St T) (u : Nat)
    (h : (s.subj u).isStopped = true) :
    ((L.foldl (fun st u => subjErrorSt u e st) s).subj u).isStopped = true := by
  induction L generalizing s with
  | nil => exact h
  | cons a L ih =>
    rw [List.foldl_cons]
    exact ih _ (subjErrorSt_isStopped_mono a u e s h)

theorem foldErr_isStopped_mem (e : Err) (L : List Nat) (s : St T) (u : Nat) (hu : u ∈ L) :
    ((L.foldl (fun st u => subjErrorSt u e st) s).subj u).isStopped = true := by
  induction L generalizing s with
  | nil => cases hu
  | cons a L ih =>
    rw [List.foldl_cons]
    rcases List.mem_cons.mp hu with rfl | hu'
    · exact foldErr_isStopped_mono e L _ u (subjErrorSt_isStopped_self u e s)
    · exact ih _ hu'

theorem foldErr_hist (e : Err) (L : List Nat) (s : St T) (hnd : L.Nodup)
    (hop : ∀ u ∈ L, (s.subj u).isStopped = false) :
    (L.foldl (fun st u => subjErrorSt u e st) s).hist =
      s.hist ++ L.map (fun u => Act.wError u e) := by
  induction L generalizing s with
  | nil => simp
  | cons a L ih =>
    rw [List.foldl_cons, ih _ hnd.of_cons]
    · rw [subjErrorSt_hist, hop a (List.mem_cons_self a L)]
      simp
    · intro u hu
      rw [subjErrorSt_subj_ne a u e s
        (fun h => (List.nodup_cons.mp hnd).1 (h ▸ hu))]
      exact hop u (List.mem_cons_of_mem a hu)

theorem foldComp_windows (L : List Nat) (s : St T) :
    (L.foldl (fun st u => subjCompleteSt u st) s).windows = s.windows := by
  induction L generalizing s with
  | nil => rfl
  | cons a L ih => rw [List.foldl_cons, ih]; simp

theorem foldComp_nextId (L : List Nat) (s : St T) :
    (L.foldl (fun st u => subjCompleteSt u st) s).nextId = s.nextId := by
  induction L generalizing s with
  | nil => rfl
  | cons a L ih => rw [List.foldl_cons, ih]; simp

theorem foldComp_closingActive (L : List Nat) (s : St T) :
    (L.foldl (fun st u => subjCompleteSt u st) s).closingActive = s.closingActive := by
  induction L generalizing s with
  | nil => rfl
  | cons a L ih => rw [List.foldl_cons, ih]; simp

theorem foldComp_outStopped (L : List Nat) (s : St T) :
    (L.foldl (fun st u => subjCompleteSt u st) s).outStopped = s.outStopped := by
  induction L generalizing s with
  | nil => rfl
  | cons a L ih => rw [List.foldl_cons, ih]; simp

theorem foldComp_subj_notmem (L : List Nat) (s : St T) (u : Nat) (hu : u ∉ L) :
    (L.foldl (fun st u => subjCompleteSt u st) s).subj u = s.subj u := by
  induction L generalizing s with
  | nil => rfl
  | cons a L ih =>
    rw [List.foldl_cons, ih _ (fun h => hu (List.mem_cons_of_mem a h))]
    exact subjCompleteSt_subj_ne a u s (fun h => hu (h ▸ List.mem_cons_self a L))

theorem subjCompleteSt_isStopped_mono (w u : Nat) (s : St T)
    (h : (s.subj u).isStopped = true) :
    ((subjCompleteSt w s).subj u).isStopped = true := by
  rcases eq_or_ne u w with rfl | hne
  · simp
  · rw [subjCompleteSt_subj_ne _ _ _ hne]; exact h

theorem foldComp_isStopped_mono (L : List Nat) (s : St T) (u : Nat)
    (h : (s.subj u).isStopped = true) :
    ((L.foldl (fun st u => subjCompleteSt u st) s).subj u).isStopped = true := by
  induction L generalizing s with
  | nil => exact h
  | cons a L ih =>
    rw [List.foldl_cons]
    exact ih _ (subjCompleteSt_isStopped_mono a u s h)

theorem foldComp_isStopped_mem (L : List Nat) (s : St T) (u : Nat) (hu : u ∈ L) :
    ((L.foldl (fun st u => subjCompleteSt u st) s).subj u).isStopped = true := by
  induction L generalizing s with
  | nil => cases hu
  | cons a L ih =>
    rw [List.foldl_cons]
    rcases List.mem_cons.mp hu with rfl | hu'
    · exact foldComp_isStopped_mono L _ u (subjCompleteSt_isStopped_self u s)
    · exact ih _ hu'

theorem foldComp_hist (L : List Nat) (s : St T) (hnd : L.Nodup)
    (hop : ∀ u ∈ L, (s.subj u).isStopped = false) :
    (L.foldl (fun st u => subjCompleteSt u st) s).hist =
      s.hist ++ L.map Act.wComplete := by
  induction L generalizing s with
  | nil => simp
  | cons a L ih =>
    rw [List.foldl_cons, ih _ hnd.of_cons]
    · rw [subjCompleteSt_hist, hop a (List.mem_cons_self a L)]
      simp
    · intro u hu
      rw [subjCompleteSt_subj_ne a u s
        (fun h => (List.nodup_cons.mp hnd).1 (h ▸ hu))]
      exact hop u (List.mem_cons_of_mem a hu)

theorem foldUnsub_windows (L : List Nat) (s : St T) :
    (L.foldl (fun st u => subjUnsubSt u st) s).windows = s.windows := by
  induction L generalizing s with
  | nil => rfl
  | cons a L ih => rw [List.foldl_cons, ih]; rfl

theorem foldUnsub_nextId (L : List Nat) (s : St T) :
    (L.foldl (fun st u => subjUnsubSt u st) s).nextId = s.nextId := by
  induction L generalizing s with
  | nil => rfl
  | cons a L ih => rw [List.foldl_cons, ih]; rfl

theorem foldUnsub_closingActive (L : List Nat) (s : St T) :
    (L.foldl (fun st u => subjUnsubSt u st) s).closingActive = s.closingActive := by
  induction L generalizing s with
  | nil => rfl
  | cons a L ih => rw [List.foldl_cons, ih]; rfl

theorem foldUnsub_outStopped (L : List Nat) (s : St T) :
    (L.foldl (fun st u => subjUnsubSt u st) s).outStopped = s.outStopped := by
  induction L generalizing s with
  | nil => rfl
  | cons a L ih => rw [List.foldl_cons, ih]; rfl

theorem foldUnsub_hist (L : List Nat) (s : St T) :
    (L.foldl (fun st u => subjUnsubSt u st) s).hist = s.hist := by
  induction L generalizing s with
  | nil => rfl
  | cons a L ih => rw [List.foldl_cons, ih]; rfl

theorem foldUnsub_subj_notmem (L : List Nat) (s : St T) (u : Nat) (hu : u ∉ L) :
    (L.foldl (fun st u => subjUnsubSt u st) s).subj u = s.subj u := by
  induction L generalizing s with
  | nil => rfl
  | cons a L ih =>
    rw [List.foldl_cons, ih _ (fun h => hu (List.mem_cons_of_mem a h))]
    exact subjUnsubSt_subj_ne a u s (fun h => hu (h ▸ List.mem_cons_self a L))

theorem subjUnsubSt_closed_mono (w u : Nat) (s : St T)
    (h : (s.subj u).closed = true) :
    ((subjUnsubSt w s).subj u).closed = true := by
  rcases eq_or_ne u w with rfl | hne
  · simp
  · rw [subjUnsubSt_subj_ne _ _ _ hne]; exact h

theorem foldUnsub_closed_mono (L : List Nat) (s : St T) (u : Nat)
    (h : (s.subj u).closed = true) :
    ((L.foldl (fun st u => subjUnsubSt u st) s).subj u).closed = true := by
  induction L generalizing s with
  | nil => exact h
  | cons a L ih =>
    rw [List.foldl_cons]
    exact ih _ (subjUnsubSt_closed_mono a u s h)

theorem foldUnsub_closed_mem (L : List Nat) (s : St T) (u : Nat) (hu : u ∈ L) :
    ((L.foldl (fun st u => subjUnsubSt u st) s).subj u).closed = true := by
  induction L generalizing s with
  | nil => cases hu
  | cons a L ih =>
    rw [List.foldl_cons]
    rcases List.mem_cons.mp hu with rfl | hu'
    · exact foldUnsub_closed_mono L _ u (subjUnsubSt_closed_self u s)
    · exact ih _ hu'

theorem foldNext_subj (v : T) (L : List Nat) (s : St T) :
    (L.foldl (fun st u => subjNextSt u v st) s).subj = s.subj := by
  induction L generalizing s with
  | nil => rfl
  | cons a L ih => rw [List.foldl_cons, ih]; simp

theorem foldNext_windows (v : T) (L : List Nat) (s : St T) :
    (L.foldl (fun st u => subjNextSt u v st) s).windows = s.windows := by
  induction L generalizing s with
  | nil => rfl
  | cons a L ih => rw [List.foldl_cons, ih]; simp

theorem foldNext_nextId (v : T) (L : List Nat) (s : St T) :
    (L.foldl (fun st u => subjNextSt u v st) s).nextId = s.nextId := by
  induction L generalizing s with
  | nil => rfl
  | cons a L ih => rw [List.foldl_cons, ih]; simp

theorem foldNext_closingActive (v : T) (L : List Nat) (s : St T) :
    (L.foldl (fun st u => subjNextSt u v st) s).closingActive = s.closingActive := by
  induction L generalizing s with
  | nil => rfl
  | cons a L ih => rw [List.foldl_cons, ih]; simp

theorem foldNext_outStopped (v : T) (L : List Nat) (s : St T) :
    (L.foldl (fun st u => subjNextSt u v st) s).outStopped = s.outStopped := by
  induction L generalizing s with
  | nil => rfl
  | cons a L ih => rw [List.foldl_cons, ih]; simp

theorem foldNext_hist (v : T) (L : List Nat) (s : St T) :
    (L.foldl (fun st u => subjNextSt u v st) s).hist =
      s.hist ++ (L.filter (fun u => !(s.subj u).isStopped)).map (fun u => Act.wNext u v) := by
  induction L generalizing s with
  | nil => simp
  | cons a L ih =>
    rw [List.foldl_cons, ih, subjNextSt_hist, subjNextSt_subj]
    cases h : (s.subj a).isStopped <;> simp [List.filter_cons, h]

/-! ### Composite operations -/

@[simp] theorem drainError_windows (e : Err) (s : St T) : (drainError e s).windows = [] := rfl

@[simp] theorem drainError_nextId (e : Err) (s : St T) : (drainError e s).nextId = s.nextId := by
  simp [drainError, foldErr_nextId]

@[simp] theorem drainError_closingActive (e : Err) (s : St T) :
    (drainError e s).closingActive = s.closingActive := by
  simp [drainError, foldErr_closingActive]

@[simp] theorem drainError_outStopped (e : Err) (s : St T) :
    (drainError e s).outStopped = s.outStopped := by
  simp [drainError, foldErr_outStopped]

theorem drainError_subj_notmem (e : Err) (s : St T) (u : Nat) (hu : u ∉ s.windows) :
    (drainError e s).subj u = s.subj u := by
  simp only [drainError]
  exact foldErr_subj_notmem e s.windows s u hu

theorem drainError_isStopped_mem (e : Err) (s : St T) (u : Nat) (hu : u ∈ s.windows) :
    ((drainError e s).subj u).isStopped = true := by
  simp only [drainError]
  exact foldErr_isStopped_mem e s.windows s u hu

theorem drainError_hist (e : Err) (s : St T) (hnd : s.windows.Nodup)
    (hop : ∀ u ∈ s.windows, (s.subj u).isStopped = false) :
    (drainError e s).hist = s.hist ++ s.windows.map (fun u => Act.wError u e) := by
  simp only [drainError]
  exact foldErr_hist e s.windows s hnd hop

@[simp] theorem drainComplete_windows (s : St T) : (drainComplete s).windows = [] := rfl

@[simp] theorem drainComplete_nextId (s : St T) : (drainComplete s).nextId = s.nextId := by
  simp [drainComplete, foldComp_nextId]

@[simp] theorem drainComplete_closingActive (s : St T) :
    (drainComplete s).closingActive = s.closingActive := by
  simp [drainComplete, foldComp_closingActive]

@[simp] theorem drainComplete_outStopped (s : St T) :
    (drainComplete s).outStopped = s.outStopped := by
  simp [drainComplete, foldComp_outStopped]

theorem drainComplete_subj_notmem (s : St T) (u : Nat) (hu : u ∉ s.windows) :
    (drainComplete s).subj u = s.subj u := by
  simp only [drainComplete]
  exact foldComp_subj_notmem s.windows s u hu

theorem drainComplete_isStopped_mem (s : St T) (u : Nat) (hu : u ∈ s.windows) :
    ((drainComplete s).subj u).isStopped = true := by
  simp only [drainComplete]
  exact foldComp_isStopped_mem s.windows s u hu

theorem drainComplete_hist (s : St T) (hnd : s.windows.Nodup)
    (hop : ∀ u ∈ s.windows, (s.subj u).isStopped = false) :
    (drainComplete s).hist = s.hist ++ s.windows.map Act.wComplete := by
  simp only [drainComplete]
  exact foldComp_hist s.windows s hnd hop

@[simp] theorem teardown_windows (s : St T) : (teardown s).windows = [] := rfl

@[simp] theorem teardown_nextId (s : St T) : (teardown s).nextId = s.nextId := by
  simp [teardown, foldUnsub_nextId]

@[simp] theorem teardown_closingActive (s : St T) :
    (teardown s).closingActive = s.closingActive := by
  simp [teardown, foldUnsub_closingActive]

@[simp] theorem teardown_outStopped (s : St T) : (teardown s).outStopped = s.outStopped := by
  simp [teardown, foldUnsub_outStopped]

@[simp] theorem teardown_hist (s : St T) : (teardown s).hist = s.hist := by
  simp [teardown, foldUnsub_hist]

theorem teardown_subj_notmem (s : St T) (u : Nat) (hu : u ∉ s.windows) :
    (teardown s).subj u = s.subj u := by
  simp only [teardown]
  exact foldUnsub_subj_notmem s.windows s u hu

theorem teardown_closed_mem (s : St T) (u : Nat) (hu : u ∈ s.windows) :
    ((teardown s).subj u).closed = true := by
  simp only [teardown]
  exact foldUnsub_closed_mem s.windows s u hu

@[simp] theorem handleError_windows (e : Err) (s : St T) : (handleError e s).windows = [] := by
  simp [handleError]

@[simp] theorem handleError_nextId (e : Err) (s : St T) : (handleError e s).nextId = s.nextId := by
  simp [handleError]

@[simp] theorem handleError_closingActive (e : Err) (s : St T) :
    (handleError e s).closingActive = s.closingActive := by
  simp [handleError]

@[simp] theorem handleError_outStopped (e : Err) (s : St T) :
    (handleError e s).outStopped = true := by
  simp [handleError]

theorem handleError_subj_notmem (e : Err) (s : St T) (u : Nat) (hu : u ∉ s.windows) :
    (handleError e s).subj u = s.subj u := by
  simp only [handleError, outErrorSt_subj]
  exact drainError_subj_notmem e s u hu

theorem handleError_isStopped_mem (e : Err) (s : St T) (u : Nat) (hu : u ∈ s.windows) :
    ((handleError e s).subj u).isStopped = true := by
  simp only [handleError, outErrorSt_subj]
  exact drainError_isStopped_mem e s u hu

theorem handleError_hist (e : Err) (s : St T) (hst : s.outStopped = false)
    (hnd : s.windows.Nodup) (hop : ∀ u ∈ s.windows, (s.subj u).isStopped = false) :
    (handleError e s).hist =
      s.hist ++ s.windows.map (fun u => Act.wError u e) ++ [Act.outError e] := by
  simp [handleError, outErrorSt_hist, drainError_hist e s hnd hop, hst]

@[simp] theorem fanOut_windows (v : T) (s : St T) : (fanOut v s).windows = s.windows := by
  simp [fanOut, foldNext_windows]

@[simp] theorem fanOut_nextId (v : T) (s : St T) : (fanOut v s).nextId = s.nextId := by
  simp [fanOut, foldNext_nextId]

@[simp] theorem fanOut_closingActive (v : T) (s : St T) :
    (fanOut v s).closingActive = s.closingActive := by
  simp [fanOut, foldNext_closingActive]

@[simp] theorem fanOut_outStopped (v : T) (s : St T) :
    (fanOut v s).outStopped = s.outStopped := by
  simp [fanOut, foldNext_outStopped]

@[simp] theorem fanOut_subj (v : T) (s : St T) : (fanOut v s).subj = s.subj := by
  simp [fanOut, foldNext_subj]

theorem fanOut_hist (v : T) (s : St T) (hop : ∀ u ∈ s.windows, (s.subj u).isStopped = false) :
    (fanOut v s).hist = s.hist ++ s.windows.map (fun u => Act.wNext u v) := by
  rw [fanOut, foldNext_hist]
  congr 1
  congr 1
  exact List.filter_eq_self.mpr (fun u hu => by simp [hop u hu])

@[simp] theorem closeWindow_windows (w : Nat) (s : St T) :
    (closeWindow w s).windows = s.windows.erase w := by
  simp [closeWindow]

@[simp] theorem closeWindow_nextId (w : Nat) (s : St T) :
    (closeWindow w s).nextId = s.nextId := by
  simp [closeWindow]

@[simp] theorem closeWindow_closingActive (w : Nat) (s : St T) :
    (closeWindow w s).closingActive = s.closingActive.erase w := by
  simp [closeWindow]

@[simp] theorem closeWindow_outStopped (w : Nat) (s : St T) :
    (closeWindow w s).outStopped = s.outStopped := by
  simp [closeWindow]

theorem closeWindow_hist (w : Nat) (s : St T) :
    (closeWindow w s).hist =
      s.hist ++ if (s.subj w).isStopped then [] else [.wComplete w] := by
  simp [closeWindow, subjCompleteSt_hist]

theorem closeWindow_subj_ne (w u : Nat) (s : St T) (h : u ≠ w) :
    (closeWindow w s).subj u = s.subj u := by
  simp only [closeWindow]
  exact subjCompleteSt_subj_ne w u _ h

@[simp] theorem closeWindow_isStopped_self (w : Nat) (s : St T) :
    ((closeWindow w s).subj w).isStopped = true := by
  simp [closeWindow]

theorem openHandler_ok_spec (sel : O → Option Nat) (v : O) (s : St T)
    (hsel : sel v = none) (hst : s.outStopped = false) :
    openHandler sel v s =
      { s with windows := s.windows ++ [s.nextId],
               nextId := s.nextId + 1,
               closingActive := s.closingActive ++ [s.nextId],
               hist := s.hist ++ [.emit s.nextId] } := by
  simp [openHandler, hsel, outNextSt, hst]

theorem openHandler_throw_spec (sel : O → Option Nat) (v : O) (s : St T) (e : Nat)
    (hsel : sel v = some e) :
    openHandler sel v s =
      handleError (.user e)
        { s with windows := s.windows ++ [s.nextId], nextId := s.nextId + 1 } := by
  simp [openHandler, hsel]

/-! ### Emission bookkeeping -/

theorem emits_append (h h' : List (Act T)) : emits (h ++ h') = emits h ++ emits h' := by
  simp [emits, List.filterMap_append]

theorem mem_emits_iff (u : Nat) (h : List (Act T)) : u ∈ emits h ↔ Act.emit u ∈ h := by
  constructor
  · intro hm
    rcases List.mem_filterMap.mp hm with ⟨a, ha, hfa⟩
    cases a <;> simp_all
  · intro hm
    exact List.mem_filterMap.mpr ⟨Act.emit u, hm, rfl⟩

theorem wvals_append (w : Nat) (h h' : List (Act T)) :
    wvals w (h ++ h') = wvals w h ++ wvals w h' := by
  simp [wvals, List.filterMap_append]

/-! ### The run-time invariant -/

/-- Invariant of every reachable state: registry members were created and
are still open multicast channels, the registry has no duplicates and is
empty once the output terminated, only created windows were ever emitted,
every live closing association belongs to a created, already-emitted
window, and ids not yet handed out still have a pristine subject. -/
structure Inv (s : St T) : Prop where
  mem_lt : ∀ w ∈ s.windows, w < s.nextId
  mem_open : ∀ w ∈ s.windows, (s.subj w).isStopped = false
  nodup : s.windows.Nodup
  stopped_empty : s.outStopped = true → s.windows = []
  emit_lt : ∀ w, Act.emit w ∈ s.hist → w < s.nextId
  active_emitted : ∀ w ∈ s.closingActive, Act.emit w ∈ s.hist
  active_lt : ∀ w ∈ s.closingActive, w < s.nextId
  fresh_subj : ∀ w, s.nextId ≤ w → s.subj w = ({} : Flags)

theorem inv_init : Inv (initSt T) := by
  refine ⟨?_, ?_, ?_, ?_, ?_, ?_, ?_, ?_⟩ <;> simp [initSt]

/-! Reductions of `step` in a live subscription. -/

theorem step_openNext (sel : O → Option Nat) (s : St T) (v : O) (hst : s.outStopped = false) :
    step sel s (.openNext v) = openHandler sel v s := by
  simp [step, hst]

theorem step_openError (sel : O → Option Nat) (s : St T) (e : Nat) (hst : s.outStopped = false) :
    step sel s (.openError e) = teardown (outErrorSt (.user e) s) := by
  simp [step, hst]

theorem step_srcNext (sel : O → Option Nat) (s : St T) (v : T) (hst : s.outStopped = false) :
    step sel s (.srcNext v) = fanOut v s := by
  simp [step, hst]

theorem step_srcComplete (sel : O → Option Nat) (s : St T) (hst : s.outStopped = false) :
    step sel s (.srcComplete) = outCompleteSt (drainComplete s) := by
  simp [step, hst]

theorem step_srcError (sel : O → Option Nat) (s : St T) (e : Nat) (hst : s.outStopped = false) :
    step sel s (.srcError e) = handleError (.user e) s := by
  simp [step, hst]

theorem step_closeSignal (sel : O → Option Nat) (s : St T) (w : Nat)
    (hst : s.outStopped = false) :
    step sel s (.closeSignal w) = if w ∈ s.closingActive then closeWindow w s else s := by
  simp [step, hst]

theorem step_closeDone (sel : O → Option Nat) (s : St T) (w : Nat)
    (hst : s.outStopped = false) :
    step sel s (.closeDone w) = if w ∈ s.closingActive then closeWindow w s else s := by
  simp [step, hst]

theorem step_closeErrorEv (sel : O → Option Nat) (s : St T) (w : Nat) (e : Nat)
    (hst : s.outStopped = false) :
    step sel s (.closeErrorEv w e) =
      if w ∈ s.closingActive then handleError (.user e) s else s := by
  simp [step, hst]

theorem step_cancel (sel : O → Option Nat) (s : St T) (hst : s.outStopped = false) :
    step sel s (.cancel) = teardown { s with outStopped := true } := by
  simp [step, hst]

theorem inv_register (s : St T) (h : Inv s) (hst : s.outStopped = false) :
    Inv { s with windows := s.windows ++ [s.nextId], nextId := s.nextId + 1 } := by
  refine ⟨?_, ?_, ?_, ?_, ?_, ?_, ?_, ?_⟩
  · intro u hu
    rcases List.mem_append.mp hu with hu | hu
    · exact Nat.lt_succ_of_lt (h.mem_lt u hu)
    · simp at hu
      subst hu
      exact Nat.lt_succ_self _
  · intro u hu
    rcases List.mem_append.mp hu with hu | hu
    · exact h.mem_open u hu
    · simp at hu
      subst hu
      rw [h.fresh_subj s.nextId le_rfl]
  · refine List.nodup_append.mpr ⟨h.nodup, List.nodup_singleton _, ?_⟩
    intro u hu hu'
    simp at hu'
    subst hu'
    exact absurd (h.mem_lt _ hu) (lt_irrefl _)
  · intro habs
    simp only at habs
    rw [hst] at habs
    cases habs
  · intro u hu
    exact Nat.lt_succ_of_lt (h.emit_lt u hu)
  · exact h.active_emitted
  · intro u hu
    exact Nat.lt_succ_of_lt (h.active_lt u hu)
  · intro u hu
    exact h.fresh_subj u (Nat.le_of_succ_le hu)

theorem inv_handleError (e : Err) (s : St T) (h : Inv s) : Inv (handleError e s) := by
  refine ⟨?_, ?_, ?_, ?_, ?_, ?_, ?_, ?_⟩
  · simp
  · simp
  · simp
  · simp
  · intro u hu
    rw [handleError, outErrorSt_hist, drainError_hist e s h.nodup h.mem_open] at hu
    rw [handleError_nextId]
    refine h.emit_lt u ?_
    rcases List.mem_append.mp hu with hu | hu
    · rcases List.mem_append.mp hu with hu | hu
      · exact hu
      · simp at hu
    · split at hu <;> simp at hu
  · intro u hu
    rw [handleError_closingActive] at hu
    rw [handleError, outErrorSt_hist, drainError_hist e s h.nodup h.mem_open]
    exact List.mem_append_left _ (List.mem_append_left _ (h.active_emitted u hu))
  · intro u hu
    rw [handleError_closingActive] at hu
    rw [handleError_nextId]
    exact h.active_lt u hu
  · intro u hu
    rw [handleError_nextId] at hu
    rw [handleError_subj_notmem e s u (fun hmem => absurd (h.mem_lt u hmem) (by omega))]
    exact h.fresh_subj u hu

theorem inv_openHandler (sel : O → Option Nat) (v : O) (s : St T) (h : Inv s)
    (hst : s.outStopped = false) : Inv (openHandler sel v s) := by
  cases hsel : sel v with
  | some e =>
    rw [openHandler_throw_spec sel v s e hsel]
    exact inv_handleError _ _ (inv_register s h hst)
  | none =>
    rw [openHandler_ok_spec sel v s hsel hst]
    have hreg := inv_register s h hst
    refine ⟨hreg.mem_lt, hreg.mem_open, hreg.nodup, hreg.stopped_empty, ?_, ?_, ?_,
      hreg.fresh_subj⟩
    · intro u hu
      simp only [List.mem_append] at hu
      rcases hu with hu | hu
      · exact Nat.lt_succ_of_lt (h.emit_lt u hu)
      · simp at hu
        subst hu
        exact Nat.lt_succ_self _
    · intro u hu
      simp only [List.mem_append] at hu ⊢
      rcases hu with hu | hu
      · exact Or.inl (h.active_emitted u hu)
      · simp at hu
        subst hu
        simp
    · intro u hu
      simp only [List.mem_append] at hu
      rcases hu with hu | hu
      · exact Nat.lt_succ_of_lt (h.active_lt u hu)
      · simp at hu
        subst hu
        exact Nat.lt_succ_self _

theorem inv_closeWindow (w : Nat) (s : St T) (h : Inv s) (hw : w < s.nextId) :
    Inv (closeWindow w s) := by
  refine ⟨?_, ?_, ?_, ?_, ?_, ?_, ?_, ?_⟩
  · intro u hu
    rw [closeWindow_windows] at hu
    rw [closeWindow_nextId]
    exact h.mem_lt u (List.mem_of_mem_erase hu)
  · intro u hu
    rw [closeWindow_windows] at hu
    have hne : u ≠ w := ((h.nodup.mem_erase_iff).mp hu).1
    rw [closeWindow_subj_ne w u s hne]
    exact h.mem_open u (List.mem_of_mem_erase hu)
  · rw [closeWindow_windows]
    exact h.nodup.erase w
  · intro habs
    rw [closeWindow_outStopped] at habs
    rw [closeWindow_windows, h.stopped_empty habs]
    rfl
  · intro u hu
    rw [closeWindow_hist] at hu
    rw [closeWindow_nextId]
    refine h.emit_lt u ?_
    rcases List.mem_append.mp hu with hu | hu
    · exact hu
    · split at hu <;> simp at hu
  · intro u hu
    rw [closeWindow_closingActive] at hu
    rw [closeWindow_hist]
    exact List.mem_append_left _ (h.active_emitted u (List.mem_of_mem_erase hu))
  · intro u hu
    rw [closeWindow_closingActive] at hu
    rw [closeWindow_nextId]
    exact h.active_lt u (List.mem_of_mem_erase hu)
  · intro u hu
    rw [closeWindow_nextId] at hu
    rw [closeWindow_subj_ne w u s (by omega)]
    exact h.fresh_subj u hu

theorem inv_srcComplete (s : St T) (h : Inv s) : Inv (outCompleteSt (drainComplete s)) := by
  refine ⟨?_, ?_, ?_, ?_, ?_, ?_, ?_, ?_⟩
  · simp
  · simp
  · simp
  · simp
  · intro u hu
    rw [outCompleteSt_hist, drainComplete_hist s h.nodup h.mem_open] at hu
    simp only [outCompleteSt_nextId, drainComplete_nextId]
    refine h.emit_lt u ?_
    rcases List.mem_append.mp hu with hu | hu
    · rcases List.mem_append.mp hu with hu | hu
      · exact hu
      · simp at hu
    · split at hu <;> simp at hu
  · intro u hu
    simp only [outCompleteSt_closingActive, drainComplete_closingActive] at hu
    rw [outCompleteSt_hist, drainComplete_hist s h.nodup h.mem_open]
    exact List.mem_append_left _ (List.mem_append_left _ (h.active_emitted u hu))
  · intro u hu
    simp only [outCompleteSt_closingActive, drainComplete_closingActive] at hu
    simp only [outCompleteSt_nextId, drainComplete_nextId]
    exact h.active_lt u hu
  · intro u hu
    simp only [outCompleteSt_nextId, drainComplete_nextId] at hu
    rw [outCompleteSt_subj]
    rw [drainComplete_subj_notmem s u (fun hmem => absurd (h.mem_lt u hmem) (by omega))]
    exact h.fresh_subj u hu

theorem inv_teardown_of (X : St T)
    (hmemlt : ∀ w ∈ X.windows, w < X.nextId)
    (hemit : ∀ u, Act.emit u ∈ X.hist → u < X.nextId)
    (hactem : ∀ w ∈ X.closingActive, Act.emit w ∈ X.hist)
    (hactlt : ∀ w ∈ X.closingActive, w < X.nextId)
    (hfresh : ∀ w, X.nextId ≤ w → X.subj w = ({} : Flags)) :
    Inv (teardown X) := by
  refine ⟨?_, ?_, ?_, ?_, ?_, ?_, ?_, ?_⟩
  · simp
  · simp
  · simp
  · simp
  · intro u hu
    rw [teardown_hist] at hu
    rw [teardown_nextId]
    exact hemit u hu
  · intro u hu
    rw [teardown_closingActive] at hu
    rw [teardown_hist]
    exact hactem u hu
  · intro u hu
    rw [teardown_closingActive] at hu
    rw [teardown_nextId]
    exact hactlt u hu
  · intro u hu
    rw [teardown_nextId] at hu
    rw [teardown_subj_notmem X u (fun hmem => absurd (hmemlt u hmem) (by omega))]
    exact hfresh u hu

theorem inv_fanOut (v : T) (s : St T) (h : Inv s) : Inv (fanOut v s) := by
  refine ⟨?_, ?_, ?_, ?_, ?_, ?_, ?_, ?_⟩
  · intro u hu
    rw [fanOut_windows] at hu
    rw [fanOut_nextId]
    exact h.mem_lt u hu
  · intro u hu
    rw [fanOut_windows] at hu
    rw [fanOut_subj]
    exact h.mem_open u hu
  · rw [fanOut_windows]; exact h.nodup
  · intro habs
    rw [fanOut_outStopped] at habs
    rw [fanOut_windows]
    exact h.stopped_empty habs
  · intro u hu
    rw [fanOut_hist v s h.mem_open] at hu
    rw [fanOut_nextId]
    refine h.emit_lt u ?_
    rcases List.mem_append.mp hu with hu | hu
    · exact hu
    · simp at hu
  · intro u hu
    rw [fanOut_closingActive] at hu
    rw [fanOut_hist v s h.mem_open]
    exact List.mem_append_left _ (h.active_emitted u hu)
  · intro u hu
    rw [fanOut_closingActive] at hu
    rw [fanOut_nextId]
    exact h.active_lt u hu
  · intro u hu
    rw [fanOut_nextId] at hu
    rw [fanOut_subj]
    exact h.fresh_subj u hu

theorem inv_step (sel : O → Option Nat) (s : St T) (e : Ev T O) (h : Inv s) :
    Inv (step sel s e) := by
  by_cases hst : s.outStopped = true
  · rw [step_stopped sel s e hst]; exact h
  · replace hst : s.outStopped = false := by
      cases hb : s.outStopped
      · rfl
      · exact absurd hb hst
    cases e with
    | openNext v =>
      rw [step_openNext sel s v hst]
      exact inv_openHandler sel v s h hst
    | openComplete => exact h
    | openError e =>
      rw [step_openError sel s e hst]
      refine inv_teardown_of _ ?_ ?_ ?_ ?_ ?_
      · simp only [outErrorSt_windows, outErrorSt_nextId]
        exact h.mem_lt
      · intro u hu
        rw [outErrorSt_hist] at hu
        rw [outErrorSt_nextId]
        refine h.emit_lt u ?_
        rcases List.mem_append.mp hu with hu | hu
        · exact hu
        · split at hu <;> simp at hu
      · intro u hu
        rw [outErrorSt_closingActive] at hu
        rw [outErrorSt_hist]
        exact List.mem_append_left _ (h.active_emitted u hu)
      · simp only [outErrorSt_closingActive, outErrorSt_nextId]
        exact h.active_lt
      · simp only [outErrorSt_nextId, outErrorSt_subj]
        exact h.fresh_subj
    | srcNext v =>
      rw [step_srcNext sel s v hst]
      exact inv_fanOut v s h
    | srcComplete =>
      rw [step_srcComplete sel s hst]
      exact inv_srcComplete s h
    | srcError e =>
      rw [step_srcError sel s e hst]
      exact inv_handleError _ s h
    | closeSignal w =>
      rw [step_closeSignal sel s w hst]
      split
      · exact inv_closeWindow w s h (h.active_lt w (by assumption))
      · exact h
    | closeDone w =>
      rw [step_closeDone sel s w hst]
      split
      · exact inv_closeWindow w s h (h.active_lt w (by assumption))
      · exact h
    | closeErrorEv w e =>
      rw [step_closeErrorEv sel s w e hst]
      split
      · exact inv_handleError _ s h
      · exact h
    | cancel =>
      rw [step_cancel sel s hst]
      refine inv_teardown_of _ h.mem_lt h.emit_lt h.active_emitted h.active_lt h.fresh_subj

theorem inv_runFrom (sel : O → Option Nat) (s : St T) (es : List (Ev T O)) (h : Inv s) :
    Inv (runFrom sel s es) := by
  induction es generalizing s with
  | nil => exact h
  | cons e es ih => exact ih _ (inv_step sel s e h)

theorem inv_runTrace (sel : O → Option Nat) (es : List (Ev T O)) :
    Inv (runTrace sel es (T := T)) :=
  inv_runFrom sel _ es inv_init

/-! ### Frozen subscriptions and step bounds -/

theorem runFrom_stopped (sel : O → Option Nat) (s : St T) (es : List (Ev T O))
    (hst : s.outStopped = true) : runFrom sel s es = s := by
  induction es with
  | nil => rfl
  | cons e es ih => rw [runFrom, step_stopped sel s e hst, ih]

theorem liveOpens_stopped (sel : O → Option Nat) (s : St T) (es : List (Ev T O))
    (hst : s.outStopped = true) : liveOpens sel s es = 0 := by
  induction es with
  | nil => rfl
  | cons e es ih =>
    rw [liveOpens, step_stopped sel s e hst, ih, hst]
    simp

theorem nextId_step_mono (sel : O → Option Nat) (s : St T) (e : Ev T O) :
    s.nextId ≤ (step sel s e).nextId := by
  by_cases hst : s.outStopped = true
  · rw [step_stopped sel s e hst]
  · replace hst : s.outStopped = false := by
      cases hb : s.outStopped
      · rfl
      · exact absurd hb hst
    cases e with
    | openNext v =>
      rw [step_openNext sel s v hst]
      cases hsel : sel v with
      | some e =>
        rw [openHandler_throw_spec sel v s e hsel, handleError_nextId]
        exact Nat.le_succ _
      | none =>
        rw [openHandler_ok_spec sel v s hsel hst]
        exact Nat.le_succ _
    | openComplete => exact le_rfl
    | openError e => rw [step_openError sel s e hst]; simp
    | srcNext v => rw [step_srcNext sel s v hst]; simp
    | srcComplete => rw [step_srcComplete sel s hst]; simp
    | srcError e => rw [step_srcError sel s e hst]; simp
    | closeSignal w => rw [step_closeSignal sel s w hst]; split <;> simp
    | closeDone w => rw [step_closeDone sel s w hst]; split <;> simp
    | closeErrorEv w e => rw [step_closeErrorEv sel s w e hst]; split <;> simp
    | cancel => rw [step_cancel sel s hst]; simp

theorem windows_step_mem (sel : O → Option Nat) (s : St T) (e : Ev T O) (u : Nat)
    (hu : u ∈ (step sel s e).windows) : u ∈ s.windows ∨ u = s.nextId := by
  by_cases hst : s.outStopped = true
  · rw [step_stopped sel s e hst] at hu
    exact Or.inl hu
  · replace hst : s.outStopped = false := by
      cases hb : s.outStopped
      · rfl
      · exact absurd hb hst
    cases e with
    | openNext v =>
      rw [step_openNext sel s v hst] at hu
      cases hsel : sel v with
      | some e =>
        rw [openHandler_throw_spec sel v s e hsel, handleError_windows] at hu
        cases hu
      | none =>
        rw [openHandler_ok_spec sel v s hsel hst] at hu
        simp only at hu
        rcases List.mem_append.mp hu with hu | hu
        · exact Or.inl hu
        · simp at hu
          exact Or.inr hu
    | openComplete => exact Or.inl hu
    | openError e =>
      rw [step_openError sel s e hst, teardown_windows] at hu
      cases hu
    | srcNext v =>
      rw [step_srcNext sel s v hst, fanOut_windows] at hu
      exact Or.inl hu
    | srcComplete =>
      rw [step_srcComplete sel s hst, outCompleteSt_windows, drainComplete_windows] at hu
      cases hu
    | srcError e =>
      rw [step_srcError sel s e hst, handleError_windows] at hu
      cases hu
    | closeSignal w =>
      rw [step_closeSignal sel s w hst] at hu
      split at hu
      · rw [closeWindow_windows] at hu
        exact Or.inl (List.mem_of_mem_erase hu)
      · exact Or.inl hu
    | closeDone w =>
      rw [step_closeDone sel s w hst] at hu
      split at hu
      · rw [closeWindow_windows] at hu
        exact Or.inl (List.mem_of_mem_erase hu)
      · exact Or.inl hu
    | closeErrorEv w e =>
      rw [step_closeErrorEv sel s w e hst] at hu
      split at hu
      · rw [handleError_windows] at hu
        cases hu
      · exact Or.inl hu
    | cancel =>
      rw [step_cancel sel s hst, teardown_windows] at hu
      cases hu

/-! ### Values recorded by the fan-out -/

theorem wvals_map_wError (w : Nat) (e : Err) (L : List Nat) :
    wvals w (L.map (fun u => Act.wError u e) : List (Act T)) = [] := by
  induction L with
  | nil => rfl
  | cons a L ih => simp [wvals]

theorem wvals_map_wComplete (w : Nat) (L : List Nat) :
    wvals w (L.map Act.wComplete : List (Act T)) = [] := by
  induction L with
  | nil => rfl
  | cons a L ih => simp [wvals]

theorem wvals_cons (w : Nat) (a : Act T) (h : List (Act T)) :
    wvals w (a :: h) =
      (match a with
       | .wNext u v => if u = w then [v] else []
       | _ => []) ++ wvals w h := by
  cases a with
  | wNext u v => by_cases hu : u = w <;> simp [wvals, List.filterMap_cons, hu]
  | wComplete u => simp [wvals, List.filterMap_cons]
  | wError u e => simp [wvals, List.filterMap_cons]
  | emit u => simp [wvals, List.filterMap_cons]
  | outComplete => simp [wvals, List.filterMap_cons]
  | outError e => simp [wvals, List.filterMap_cons]

theorem wvals_map_wNext (w : Nat) (v : T) (L : List Nat) :
    wvals w (L.map (fun u => Act.wNext u v)) = List.replicate (L.count w) v := by
  induction L with
  | nil => rfl
  | cons a L ih =>
    rw [List.map_cons, wvals_cons, ih, List.count_cons]
    rcases eq_or_ne a w with rfl | ha
    · simp [List.replicate_succ]
    · simp [ha, Ne.symm ha]

/-- One step appends to window `w`'s value log exactly the source value of
a `srcNext` event that arrives while `w` is in the registry of a live
subscription. -/
theorem wvals_step (sel : O → Option Nat) (s : St T) (e : Ev T O) (w : Nat) (h : Inv s) :
    wvals w (step sel s e).hist = wvals w s.hist ++ collectVal w s e := by
  by_cases hst : s.outStopped = true
  · rw [step_stopped sel s e hst]
    cases e <;> simp [collectVal, hst]
  · replace hst : s.outStopped = false := by
      cases hb : s.outStopped
      · rfl
      · exact absurd hb hst
    cases e with
    | openNext v =>
      rw [step_openNext sel s v hst]
      cases hsel : sel v with
      | some ex =>
        rw [openHandler_throw_spec sel v s ex hsel]
        have hreg := inv_register s h hst
        rw [handleError_hist (Err.user ex)
          { s with windows := s.windows ++ [s.nextId], nextId := s.nextId + 1 }
          hst hreg.nodup hreg.mem_open]
        simp [collectVal, wvals_append, wvals_map_wError, wvals]
      | none =>
        rw [openHandler_ok_spec sel v s hsel hst]
        simp [collectVal, wvals_append, wvals]
    | openComplete =>
      rw [show step sel s Ev.openComplete = s from rfl]
      simp [collectVal]
    | openError e =>
      rw [step_openError sel s e hst, teardown_hist, outErrorSt_hist, hst]
      simp [collectVal, wvals_append, wvals]
    | srcNext v =>
      rw [step_srcNext sel s v hst, fanOut_hist v s h.mem_open, wvals_append, wvals_map_wNext]
      by_cases hw : w ∈ s.windows
      · rw [List.count_eq_one_of_mem h.nodup hw]
        simp [collectVal, hst, hw]
      · rw [List.count_eq_zero_of_not_mem hw]
        simp [collectVal, hst, hw]
    | srcComplete =>
      rw [step_srcComplete sel s hst, outCompleteSt_hist,
        drainComplete_hist s h.nodup h.mem_open]
      simp [collectVal, wvals_append, wvals_map_wComplete, wvals, hst]
    | srcError e =>
      rw [step_srcError sel s e hst, handleError_hist _ _ hst h.nodup h.mem_open]
      simp [collectVal, wvals_append, wvals_map_wError, wvals]
    | closeSignal w' =>
      rw [step_closeSignal sel s w' hst]
      split
      · rw [closeWindow_hist]
        split <;> simp [collectVal, wvals_append, wvals]
      · simp [collectVal]
    | closeDone w' =>
      rw [step_closeDone sel s w' hst]
      split
      · rw [closeWindow_hist]
        split <;> simp [collectVal, wvals_append, wvals]
      · simp [collectVal]
    | closeErrorEv w' e =>
      rw [step_closeErrorEv sel s w' e hst]
      split
      · rw [handleError_hist _ _ hst h.nodup h.mem_open]
        simp [collectVal, wvals_append, wvals_map_wError, wvals]
      · simp [collectVal]
    | cancel =>
      rw [step_cancel sel s hst, teardown_hist]
      simp [collectVal]

/-- The values window `w` received during a run are exactly the source
values that arrived while `w` was in the registry. -/
theorem wvals_runFrom (sel : O → Option Nat) (w : Nat) (es : List (Ev T O)) (s : St T)
    (h : Inv s) :
    wvals w (runFrom sel s es).hist = wvals w s.hist ++ windowVals sel w s es := by
  induction es generalizing s with
  | nil => simp [runFrom, windowVals]
  | cons e es ih =>
    rw [runFrom, windowVals, ih _ (inv_step sel s e h), wvals_step sel s e w h,
      List.append_assoc]

/-- A window that was created and has left the registry receives nothing
further. -/
theorem windowVals_closed (sel : O → Option Nat) (w : Nat) (s : St T) (es : List (Ev T O))
    (hlt : w < s.nextId) (habs : w ∉ s.windows) :
    windowVals sel w s es = [] := by
  induction es generalizing s with
  | nil => rfl
  | cons e es ih =>
    rw [windowVals]
    have h1 : w < (step sel s e).nextId := lt_of_lt_of_le hlt (nextId_step_mono sel s e)
    have h2 : w ∉ (step sel s e).windows := by
      intro hmem
      rcases windows_step_mem sel s e w hmem with hmem | hmem
      · exact habs hmem
      · subst hmem
        exact absurd hlt (lt_irrefl _)
    rw [ih _ h1 h2]
    cases e <;> simp [collectVal, habs]

/-- While `w` is in the registry, it receives every source value up to
(but excluding) the step that closes it. -/
theorem windowVals_open (sel : O → Option Nat) (w : Nat) (s : St T) (es : List (Ev T O))
    (h : Inv s) (hmem : w ∈ s.windows) :
    windowVals sel w s es =
      (es.take ((closedAtFrom sel w s es).getD es.length)).filterMap srcVal := by
  induction es generalizing s with
  | nil => simp [windowVals, closedAtFrom]
  | cons e es ih =>
    have hst : s.outStopped = false := by
      cases hb : s.outStopped
      · rfl
      · rw [h.stopped_empty hb] at hmem
        exact absurd hmem (List.not_mem_nil w)
    have hlt : w < s.nextId := h.mem_lt w hmem
    by_cases hw' : w ∈ (step sel s e).windows
    · rw [windowVals, closedAtFrom, if_neg (fun hc => hc.2 hw'),
        ih _ (inv_step sel s e h) hw']
      rw [show ((closedAtFrom sel w (step sel s e) es).map (· + 1)).getD (e :: es).length
            = (closedAtFrom sel w (step sel s e) es).getD es.length + 1 from by
          cases closedAtFrom sel w (step sel s e) es <;> simp]
      rw [List.take_succ_cons, List.filterMap_cons]
      cases e <;> simp [collectVal, srcVal, hst, hmem]
    · have hcond : w < (step sel s e).nextId ∧ w ∉ (step sel s e).windows :=
        ⟨lt_of_lt_of_le hlt (nextId_step_mono sel s e), hw'⟩
      rw [windowVals, closedAtFrom, if_pos hcond,
        windowVals_closed sel w _ es hcond.1 hw']
      cases e with
      | srcNext v =>
        exfalso
        apply hw'
        rw [step_srcNext sel s v hst, fanOut_windows]
        exact hmem
      | openNext v => simp [collectVal]
      | openComplete => simp [collectVal]
      | openError e => simp [collectVal]
      | srcComplete => simp [collectVal]
      | srcError e => simp [collectVal]
      | closeSignal w' => simp [collectVal]
      | closeDone w' => simp [collectVal]
      | closeErrorEv w' e => simp [collectVal]
      | cancel => simp [collectVal]

/-- Before its creation a window receives nothing; once created it
receives exactly the source values strictly inside its open interval. -/
theorem windowVals_uncreated (sel : O → Option Nat) (w : Nat) (s : St T) (es : List (Ev T O))
    (h : Inv s) (hge : s.nextId ≤ w) :
    windowVals sel w s es =
      (match openedAtFrom sel w s es with
       | none => []
       | some j =>
         ((es.drop (j + 1)).take
            ((closedAtFrom sel w s es).getD es.length - (j + 1))).filterMap srcVal) := by
  induction es generalizing s with
  | nil => rfl
  | cons e es ih =>
    have hnm : w ∉ s.windows := fun hmem => absurd (h.mem_lt w hmem) (by omega)
    rw [windowVals, openedAtFrom]
    by_cases hcr : w < (step sel s e).nextId
    · rw [if_pos hcr]
      by_cases hw' : w ∈ (step sel s e).windows
      · rw [closedAtFrom, if_neg (fun hc => hc.2 hw'),
          windowVals_open sel w _ es (inv_step sel s e h) hw']
        cases hco : closedAtFrom sel w (step sel s e) es with
        | none => cases e <;> simp [collectVal, hnm, List.drop_succ_cons]
        | some c => cases e <;> simp [collectVal, hnm, List.drop_succ_cons]
      · rw [closedAtFrom, if_pos ⟨hcr, hw'⟩, windowVals_closed sel w _ es hcr hw']
        cases e <;> simp [collectVal, hnm]
    · rw [if_neg hcr]
      have hge' : (step sel s e).nextId ≤ w := Nat.le_of_not_lt hcr
      rw [ih _ (inv_step sel s e h) hge', closedAtFrom, if_neg (fun hc => hcr hc.1)]
      cases hop : openedAtFrom sel w (step sel s e) es with
      | none => cases e <;> simp [collectVal, hnm]
      | some j =>
        have h2 : ((closedAtFrom sel w (step sel s e) es).map (· + 1)).getD
              (e :: es).length - (j + 1 + 1)
            = (closedAtFrom sel w (step sel s e) es).getD es.length - (j + 1) := by
          cases closedAtFrom sel w (step sel s e) es <;> simp
        cases e <;> simp [collectVal, hnm, h2, List.drop_succ_cons]

/-! ### Counting emitted windows -/

theorem foldErr_emits (e : Err) (L : List Nat) (s : St T) :
    emits (L.foldl (fun st u => subjErrorSt u e st) s).hist = emits s.hist := by
  induction L generalizing s with
  | nil => rfl
  | cons a L ih =>
    rw [List.foldl_cons, ih, subjErrorSt_hist, emits_append]
    split <;> simp [emits]

theorem foldComp_emits (L : List Nat) (s : St T) :
    emits (L.foldl (fun st u => subjCompleteSt u st) s).hist = emits s.hist := by
  induction L generalizing s with
  | nil => rfl
  | cons a L ih =>
    rw [List.foldl_cons, ih, subjCompleteSt_hist, emits_append]
    split <;> simp [emits]

theorem foldNext_emits (v : T) (L : List Nat) (s : St T) :
    emits (L.foldl (fun st u => subjNextSt u v st) s).hist = emits s.hist := by
  induction L generalizing s with
  | nil => rfl
  | cons a L ih =>
    rw [List.foldl_cons, ih, subjNextSt_hist, emits_append]
    split <;> simp [emits]

/-- One step emits a window downstream exactly when it is an opening
event processed by a live subscription whose closing selector does not
throw (so the subscription is still live afterwards); the emitted window
is the freshly created one. -/
theorem emits_step (sel : O → Option Nat) (s : St T) (e : Ev T O) :
    emits (step sel s e).hist =
      emits s.hist ++
        (if s.outStopped = false ∧ (step sel s e).outStopped = false ∧ isOpenEv e = true
         then [s.nextId] else []) := by
  by_cases hst : s.outStopped = true
  · rw [step_stopped sel s e hst]
    simp [hst]
  · replace hst : s.outStopped = false := by
      cases hb : s.outStopped
      · rfl
      · exact absurd hb hst
    cases e with
    | openNext v =>
      rw [step_openNext sel s v hst]
      cases hsel : sel v with
      | some ex =>
        rw [openHandler_throw_spec sel v s ex hsel]
        have h1 : emits (handleError (Err.user ex)
            { s with windows := s.windows ++ [s.nextId], nextId := s.nextId + 1 }).hist
            = emits s.hist := by
          rw [handleError, outErrorSt_hist, emits_append, drainError, foldErr_emits]
          split <;> simp [emits]
        rw [h1]
        simp [hst]
      | none =>
        rw [openHandler_ok_spec sel v s hsel hst]
        simp [hst, isOpenEv, emits_append, emits]
    | openComplete =>
      rw [show step sel s Ev.openComplete = s from rfl]
      simp [isOpenEv]
    | openError e =>
      rw [step_openError sel s e hst, teardown_hist, outErrorSt_hist, hst]
      simp [isOpenEv, emits_append, emits]
    | srcNext v =>
      rw [step_srcNext sel s v hst, fanOut, foldNext_emits]
      simp [isOpenEv]
    | srcComplete =>
      rw [step_srcComplete sel s hst, outCompleteSt_hist, emits_append,
        show (drainComplete s).hist
          = (s.windows.foldl (fun st u => subjCompleteSt u st) s).hist from rfl,
        foldComp_emits]
      split <;> simp [isOpenEv, emits]
    | srcError e =>
      rw [step_srcError sel s e hst, handleError, outErrorSt_hist, emits_append,
        drainError, foldErr_emits]
      split <;> simp [isOpenEv, emits]
    | closeSignal w =>
      rw [step_closeSignal sel s w hst]
      split
      · rw [closeWindow_hist, emits_append]
        split <;> simp [isOpenEv, emits]
      · simp [isOpenEv]
    | closeDone w =>
      rw [step_closeDone sel s w hst]
      split
      · rw [closeWindow_hist, emits_append]
        split <;> simp [isOpenEv, emits]
      · simp [isOpenEv]
    | closeErrorEv w e =>
      rw [step_closeErrorEv sel s w e hst]
      split
      · rw [handleError, outErrorSt_hist, emits_append, drainError, foldErr_emits]
        split <;> simp [isOpenEv, emits]
      · simp [isOpenEv]
    | cancel =>
      rw [step_cancel sel s hst, teardown_hist]
      simp [isOpenEv]

/-- A step that leaves the subscription live creates a window exactly on
an opening event. -/
theorem nextId_step_live (sel : O → Option Nat) (s : St T) (e : Ev T O)
    (hst : s.outStopped = false) (hst' : (step sel s e).outStopped = false) :
    (step sel s e).nextId = if isOpenEv e = true then s.nextId + 1 else s.nextId := by
  cases e with
  | openNext v =>
    rw [step_openNext sel s v hst] at hst' ⊢
    cases hsel : sel v with
    | some ex =>
      rw [openHandler_throw_spec sel v s ex hsel] at hst'
      rw [handleError_outStopped] at hst'
      cases hst'
    | none =>
      rw [openHandler_ok_spec sel v s hsel hst]
      simp [isOpenEv]
  | openComplete => simp [step, isOpenEv]
  | openError e => rw [step_openError sel s e hst]; simp [isOpenEv]
  | srcNext v => rw [step_srcNext sel s v hst]; simp [isOpenEv]
  | srcComplete => rw [step_srcComplete sel s hst]; simp [isOpenEv]
  | srcError e => rw [step_srcError sel s e hst]; simp [isOpenEv]
  | closeSignal w => rw [step_closeSignal sel s w hst]; split <;> simp [isOpenEv]
  | closeDone w => rw [step_closeDone sel s w hst]; split <;> simp [isOpenEv]
  | closeErrorEv w e => rw [step_closeErrorEv sel s w e hst]; split <;> simp [isOpenEv]
  | cancel => rw [step_cancel sel s hst]; simp [isOpenEv]

/-- Generalized counting: the ids emitted by the rest of a run extend the
already-emitted range `[0..nextId)` by one id per opening received while
the output is still live. -/
theorem emits_liveOpens (sel : O → Option Nat) (es : List (Ev T O)) (s : St T) (h : Inv s)
    (hst : s.outStopped = false) (hbase : emits s.hist = List.range s.nextId) :
    emits (runFrom sel s es).hist = List.range (s.nextId + liveOpens sel s es) := by
  induction es generalizing s with
  | nil => simpa using hbase
  | cons e es ih =>
    rw [runFrom, liveOpens]
    by_cases hst' : (step sel s e).outStopped = true
    · rw [runFrom_stopped sel _ es hst', liveOpens_stopped sel _ es hst',
        emits_step sel s e, hbase, hst']
      simp
    · replace hst' : (step sel s e).outStopped = false := by
        cases hb : (step sel s e).outStopped
        · rfl
        · exact absurd hb hst'
      have hbase' : emits (step sel s e).hist = List.range (step sel s e).nextId := by
        rw [emits_step sel s e, hbase, nextId_step_live sel s e hst hst']
        by_cases hoe : isOpenEv e = true
        · simp [hoe, hst, hst', List.range_succ]
        · simp [hoe, hst, hst']
      rw [ih _ (inv_step sel s e h) hst' hbase',
        nextId_step_live sel s e hst hst']
      cases hoe : isOpenEv e
      · simp [hoe]
      · simp [hoe, hst', Nat.add_assoc]

/-! ### Reentrant fan-out -/

/-- The state extends the observable history of `s`. -/
def HistExt (s s' : St T) : Prop :=
  ∃ t, s'.hist = s.hist ++ t

/-- The state extends the observable history of `s` without delivering
any further value to any window. -/
def NoNewNext (s s' : St T) : Prop :=
  ∃ t, s'.hist = s.hist ++ t ∧ ∀ (w : Nat) (v' : T), Act.wNext w v' ∉ t

theorem NoNewNext.histExt {s s' : St T} (h : NoNewNext s s') : HistExt s s' :=
  ⟨h.choose, h.choose_spec.1⟩

theorem nnn_refl (s : St T) : NoNewNext s s :=
  ⟨[], by simp, by simp⟩

theorem nnn_of_eq {s s' : St T} (h : s'.hist = s.hist) : NoNewNext s s' :=
  ⟨[], by simp [h], by simp⟩

theorem nnn_trans {s₁ s₂ s₃ : St T} (h₁ : NoNewNext s₁ s₂) (h₂ : NoNewNext s₂ s₃) :
    NoNewNext s₁ s₃ := by
  obtain ⟨t₁, e₁, m₁⟩ := h₁
  obtain ⟨t₂, e₂, m₂⟩ := h₂
  refine ⟨t₁ ++ t₂, by rw [e₂, e₁, List.append_assoc], ?_⟩
  intro w v' hm
  rcases List.mem_append.mp hm with hm | hm
  · exact m₁ w v' hm
  · exact m₂ w v' hm

theorem histExt_refl (s : St T) : HistExt s s := ⟨[], by simp⟩

theorem histExt_trans {s₁ s₂ s₃ : St T} (h₁ : HistExt s₁ s₂) (h₂ : HistExt s₂ s₃) :
    HistExt s₁ s₃ := by
  obtain ⟨t₁, e₁⟩ := h₁
  obtain ⟨t₂, e₂⟩ := h₂
  exact ⟨t₁ ++ t₂, by rw [e₂, e₁, List.append_assoc]⟩

theorem histExt_mem {s s' : St T} (h : HistExt s s') (a : Act T) (ha : a ∈ s.hist) :
    a ∈ s'.hist := by
  obtain ⟨t, e⟩ := h
  rw [e]
  exact List.mem_append_left t ha

theorem nnn_subjCompleteSt (w : Nat) (s : St T) : NoNewNext s (subjCompleteSt w s) := by
  refine ⟨if (s.subj w).isStopped then [] else [.wComplete w], subjCompleteSt_hist w s, ?_⟩
  intro u v'
  split <;> simp

theorem nnn_subjErrorSt (w : Nat) (e : Err) (s : St T) : NoNewNext s (subjErrorSt w e s) := by
  refine ⟨if (s.subj w).isStopped then [] else [.wError w e], subjErrorSt_hist w e s, ?_⟩
  intro u v'
  split <;> simp

theorem nnn_outNextSt (w : Nat) (s : St T) : NoNewNext s (outNextSt w s) := by
  refine ⟨if s.outStopped then [] else [.emit w], outNextSt_hist w s, ?_⟩
  intro u v'
  split <;> simp

theorem nnn_outErrorSt (e : Err) (s : St T) : NoNewNext s (outErrorSt e s) := by
  refine ⟨if s.outStopped then [] else [.outError e], outErrorSt_hist e s, ?_⟩
  intro u v'
  split <;> simp

theorem nnn_fold {f : St T → Nat → St T} (hf : ∀ st u, NoNewNext st (f st u))
    (L : List Nat) (s : St T) : NoNewNext s (L.foldl f s) := by
  induction L generalizing s with
  | nil => exact nnn_refl s
  | cons a L ih => exact nnn_trans (hf s a) (ih (f s a))

theorem nnn_drainError (e : Err) (s : St T) : NoNewNext s (drainError e s) := by
  refine nnn_trans (nnn_fold (fun st u => nnn_subjErrorSt u e st) s.windows s) (nnn_of_eq rfl)

theorem nnn_handleError (e : Err) (s : St T) : NoNewNext s (handleError e s) :=
  nnn_trans (nnn_drainError e s) (nnn_outErrorSt e _)

theorem nnn_openHandler (sel : O → Option Nat) (v : O) (s : St T) :
    NoNewNext s (openHandler sel v s) := by
  rw [openHandler]
  have hh : ({ s with
      windows := s.windows ++ [s.nextId],
      nextId := s.nextId + 1 } : St T).hist = s.hist := rfl
  cases sel v with
  | some e => exact nnn_trans (nnn_of_eq hh) (nnn_handleError (.user e) _)
  | none => exact nnn_trans (nnn_of_eq hh) (nnn_trans (nnn_outNextSt s.nextId _) (nnn_of_eq rfl))

theorem nnn_applyROp (sel : O → Option Nat) (s : St T) (op : ROp O) :
    NoNewNext s (applyROp sel s op) := by
  cases op with
  | ropen v =>
    rw [applyROp]
    split
    · exact nnn_refl s
    · exact nnn_openHandler sel v s
  | rclose w =>
    rw [applyROp]
    split
    · exact nnn_refl s
    · split
      · refine ⟨if (s.subj w).isStopped then [] else [.wComplete w], ?_, ?_⟩
        · exact closeWindow_hist w s
        · intro u v'
          split <;> simp
      · exact nnn_refl s

theorem nnn_opsFold (sel : O → Option Nat) (ops : List (ROp O)) (s : St T) :
    NoNewNext s (ops.foldl (applyROp sel) s) := by
  induction ops generalizing s with
  | nil => exact nnn_refl s
  | cons op ops ih => exact nnn_trans (nnn_applyROp sel s op) (ih _)

/-- The whole history written by the reentrant fan-out beyond what was
already there: only deliveries of the fanned-out value, only to windows
of the registry snapshot. -/
theorem fanOutR_hist_shape (sel : O → Option Nat) (v : T) (reacts : Nat → List (ROp O))
    (s : St T) :
    ∃ t, (fanOutR sel v reacts s).hist = s.hist ++ t ∧
      ∀ w v', Act.wNext w v' ∈ t → w ∈ s.windows ∧ v' = v := by
  rw [fanOutR]
  split
  · exact ⟨[], by simp, by simp⟩
  · suffices hgen : ∀ (L : List Nat) (s₀ : St T),
        ∃ t, (L.foldl (fun st u => (reacts u).foldl (applyROp sel) (subjNextSt u v st))
            s₀).hist = s₀.hist ++ t ∧
          ∀ w v', Act.wNext w v' ∈ t → w ∈ L ∧ v' = v by
      obtain ⟨t, e, m⟩ := hgen s.windows s
      exact ⟨t, e, m⟩
    intro L
    induction L with
    | nil => exact fun s₀ => ⟨[], by simp, by simp⟩
    | cons a L ih =>
      intro s₀
      obtain ⟨t₂, e₂, m₂⟩ := nnn_opsFold sel (reacts a) (subjNextSt a v s₀)
      obtain ⟨t₃, e₃, m₃⟩ := ih ((reacts a).foldl (applyROp sel) (subjNextSt a v s₀))
      refine ⟨(if (s₀.subj a).isStopped then [] else [.wNext a v]) ++ t₂ ++ t₃, ?_, ?_⟩
      · rw [List.foldl_cons, e₃, e₂, subjNextSt_hist]
        simp [List.append_assoc]
      · intro w v' hm
        rcases List.mem_append.mp hm with hm | hm
        · rcases List.mem_append.mp hm with hm | hm
          · constructor
            · split at hm <;> simp at hm
              exact hm.1 ▸ List.mem_cons_self a L
            · split at hm <;> simp at hm
              exact hm.2
          · exact absurd hm (m₂ w v')
        · obtain ⟨hw, hv⟩ := m₃ w v' hm
          exact ⟨List.mem_cons_of_mem a hw, hv⟩

theorem histExt_subjNextSt (w : Nat) (v : T) (s : St T) : HistExt s (subjNextSt w v s) :=
  ⟨if (s.subj w).isStopped then [] else [.wNext w v], subjNextSt_hist w v s⟩

theorem histExt_fanStep (sel : O → Option Nat) (v : T) (reacts : Nat → List (ROp O))
    (st : St T) (u : Nat) :
    HistExt st ((reacts u).foldl (applyROp sel) (subjNextSt u v st)) :=
  histExt_trans (histExt_subjNextSt u v st)
    (nnn_opsFold sel (reacts u) (subjNextSt u v st)).histExt

theorem histExt_fanFold (sel : O → Option Nat) (v : T) (reacts : Nat → List (ROp O))
    (L : List Nat) (s : St T) :
    HistExt s (L.foldl (fun st u => (reacts u).foldl (applyROp sel) (subjNextSt u v st)) s) := by
  induction L generalizing s with
  | nil => exact histExt_refl s
  | cons a L ih => exact histExt_trans (histExt_fanStep sel v reacts s a) (ih _)

/-- An `applyROp` that neither closes `w` nor invokes a throwing selector
leaves `w`'s subject open and the output live. -/
theorem applyROp_preserves (sel : O → Option Nat) (w : Nat) (s : St T) (op : ROp O)
    (hP : (s.subj w).isStopped = false ∧ s.outStopped = false)
    (hop : op ≠ ROp.rclose w ∧ ∀ v'', op = ROp.ropen v'' → sel v'' = none) :
    ((applyROp sel s op).subj w).isStopped = false ∧ (applyROp sel s op).outStopped = false := by
  cases op with
  | ropen v'' =>
    rw [applyROp]
    split
    · exact hP
    · rw [openHandler_ok_spec sel v'' s (hop.2 v'' rfl) hP.2]
      exact hP
  | rclose u =>
    have hne : u ≠ w := by
      intro h
      exact hop.1 (by rw [h])
    rw [applyROp]
    split
    · exact hP
    · split
      · rw [closeWindow_subj_ne u w s hne.symm, closeWindow_outStopped]
        exact hP
      · exact hP

theorem opsFold_preserves (sel : O → Option Nat) (w : Nat) (ops : List (ROp O)) (s : St T)
    (hP : (s.subj w).isStopped = false ∧ s.outStopped = false)
    (hops : ∀ op ∈ ops, op ≠ ROp.rclose w ∧ ∀ v'', op = ROp.ropen v'' → sel v'' = none) :
    ((ops.foldl (applyROp sel) s).subj w).isStopped = false ∧
      (ops.foldl (applyROp sel) s).outStopped = false := by
  induction ops generalizing s with
  | nil => exact hP
  | cons op ops ih =>
    rw [List.foldl_cons]
    exact ih _ (applyROp_preserves sel w s op hP (hops op (List.mem_cons_self op ops)))
      (fun op' hop' => hops op' (List.mem_cons_of_mem op hop'))

theorem fanFold_preserves (sel : O → Option Nat) (v : T) (reacts : Nat → List (ROp O))
    (w : Nat) (L : List Nat) (s : St T)
    (hP : (s.subj w).isStopped = false ∧ s.outStopped = false)
    (hL : ∀ u ∈ L, ∀ op ∈ reacts u,
      op ≠ ROp.rclose w ∧ ∀ v'', op = ROp.ropen v'' → sel v'' = none) :
    ((L.foldl (fun st u => (reacts u).foldl (applyROp sel) (subjNextSt u v st)) s).subj w).isStopped
        = false ∧
      (L.foldl (fun st u => (reacts u).foldl (applyROp sel) (subjNextSt u v st)) s).outStopped
        = false := by
  induction L generalizing s with
  | nil => exact hP
  | cons a L ih =>
    rw [List.foldl_cons]
    refine ih _ ?_ (fun u hu => hL u (List.mem_cons_of_mem a hu))
    have hP' : ((subjNextSt a v s).subj w).isStopped = false ∧
        (subjNextSt a v s).outStopped = false := by
      rw [subjNextSt_subj, subjNextSt_outStopped]
      exact hP
    exact opsFold_preserves sel w (reacts a) _ hP' (hL a (List.mem_cons_self a L))

/-! ### Concrete instances used by witnesses and counterexamples -/

/-- A closing selector that never throws. -/
def selNone : Nat → Option Nat := fun _ => none

/-- A closing selector that throws error `3` on opening value `99`. -/
def selThrow : Nat → Option Nat := fun v => if v = 99 then some 3 else none

/-- One opening, then one source value. -/
def esA : List (Ev Nat Nat) := [.openNext 0, .srcNext 5]

/-- A single opening. -/
def esOpen : List (Ev Nat Nat) := [.openNext 0]

/-- One opening, then the openings stream errors. -/
def esOpenErr : List (Ev Nat Nat) := [.openNext 0, .openError 7]

/-- The overlap scenario: two openings, three source values, the two
closing notifiers firing in between. -/
def esOverlapTr : List (Ev Nat Nat) :=
  [.openNext 0, .srcNext 1, .openNext 5, .srcNext 6, .closeSignal 0, .srcNext 11,
    .closeSignal 1]

/-- The timeline scenario of the specification. -/
def esTimelineTr : List (Ev Nat Nat) :=
  [.openNext 0, .srcNext 1, .openNext 3, .srcNext 2, .closeSignal 0, .srcNext 4,
    .closeSignal 1]

/-- Two openings: windows `0` and `1` are both open. -/
def sTwo : St Nat := runTrace selNone [.openNext 0, .openNext 0]

/-- Fan-out reaction: window `0`'s consumer fires window `1`'s closing
notifier. -/
def reactsCloseLater : Nat → List (ROp Nat) := fun u => if u = 0 then [ROp.rclose 1] else []

/-- Fan-out reaction: window `0`'s consumer fires its own closing
notifier. -/
def reactsCloseSelf : Nat → List (ROp Nat) := fun u => if u = 0 then [ROp.rclose 0] else []

/-! ### The claims -/

/-- Claim C1: for every window `w` and source value, the value is delivered
to `w` if and only if it arrives between `w`'s opening and `w`'s close —
in this discrete-event model, strictly after the opening event and
strictly before the closing event (a value can never share an instant
with either).  The per-window statement for every `w` at once also gives
overlap correctness: windows with overlapping intervals each receive
exactly the values of their own interval. -/
theorem c1_interval_delivery (sel : O → Option Nat) (w : Nat) (es : List (Ev T O)) :
    wvals w (runTrace sel es).hist = intervalVals sel w es := by
  rw [runTrace, wvals_runFrom sel w es (initSt T) inv_init,
    windowVals_uncreated sel w (initSt T) es inv_init (Nat.zero_le w)]
  rw [intervalVals]
  rfl

/-- Claim C2: the output emits exactly one window per opening emission
received strictly before the first terminal event of the output stream
(`liveOpens` counts exactly those openings: the ones after whose
processing the output is still unterminated), and the emitted ids are
`0, 1, 2, …` in opening order — one window per opening, in order. -/
theorem c2_one_window_per_opening (sel : O → Option Nat) (es : List (Ev T O)) :
    emits (runTrace sel es (T := T)).hist = List.range (liveOpens sel (initSt T) es) := by
  have h := emits_liveOpens sel es (initSt T) inv_init rfl rfl
  rw [runTrace]
  simpa [show (initSt T).nextId = 0 from rfl] using h

/-- Claim C3: when the source completes on a live subscription, every
window still in the registry receives a normal completion, drained in
registry (oldest-first) order, then the output completes; the appended
history contains no error signal, and the registry is left empty. -/
theorem c3_source_complete_drain (sel : O → Option Nat) (es : List (Ev T O))
    (h : (runTrace sel es).outStopped = false) :
    (step sel (runTrace sel es) Ev.srcComplete).hist =
        (runTrace sel es).hist ++ (runTrace sel es).windows.map Act.wComplete
          ++ [Act.outComplete] ∧
      (step sel (runTrace sel es) Ev.srcComplete).windows = [] := by
  have hI := inv_runTrace sel es
  rw [step_srcComplete sel _ h]
  constructor
  · rw [outCompleteSt_hist, drainComplete_hist _ hI.nodup hI.mem_open]
    simp [h]
  · simp

/-- Witness for `c3_source_complete_drain`: a live subscription with one
open window that received one value. -/
theorem c3_source_complete_drain_witness :
    (runTrace selNone esA).outStopped = false ∧
    ((step selNone (runTrace selNone esA) Ev.srcComplete).hist =
        (runTrace selNone esA).hist ++ (runTrace selNone esA).windows.map Act.wComplete
          ++ [Act.outComplete] ∧
      (step selNone (runTrace selNone esA) Ev.srcComplete).windows = []) :=
  ⟨by decide, c3_source_complete_drain selNone esA (by decide)⟩

/-- Claim C4: when the source errors with `e` on a live subscription, every
window still in the registry receives that same error `e` (drained until
the registry is empty), then the output errors with `e`. -/
theorem c4_source_error_drain (sel : O → Option Nat) (es : List (Ev T O)) (e : Nat)
    (h : (runTrace sel es).outStopped = false) :
    (step sel (runTrace sel es) (Ev.srcError e)).hist =
        (runTrace sel es).hist
          ++ (runTrace sel es).windows.map (fun u => Act.wError u (.user e))
          ++ [Act.outError (.user e)] ∧
      (step sel (runTrace sel es) (Ev.srcError e)).windows = [] := by
  have hI := inv_runTrace sel es
  rw [step_srcError sel _ e h]
  exact ⟨handleError_hist _ _ h hI.nodup hI.mem_open, by simp⟩

/-- Witness for `c4_source_error_drain`. -/
theorem c4_source_error_drain_witness :
    (runTrace selNone esA).outStopped = false ∧
    ((step selNone (runTrace selNone esA) (Ev.srcError 9)).hist =
        (runTrace selNone esA).hist
          ++ (runTrace selNone esA).windows.map (fun u => Act.wError u (.user 9))
          ++ [Act.outError (.user 9)] ∧
      (step selNone (runTrace selNone esA) (Ev.srcError 9)).windows = []) :=
  ⟨by decide, c4_source_error_drain selNone esA 9 (by decide)⟩

/-- Claim C5, counterexample: the openings subscriber passes no error
handler (line 109 of the source: the `onError` argument is `undefined`),
so an openings-stream error goes straight to the output subscriber and is
NOT routed through `handleError`.  With one window open, the run's
history after an openings error `7` is just the emission and the output
error — window `0` never receives error `7`; it is merely unsubscribed by
the teardown. -/
theorem c5_counterexample :
    0 ∈ (runTrace selNone esOpen).windows ∧
    (runTrace selNone esOpenErr).hist = [Act.emit 0, Act.outError (.user 7)] ∧
    Act.wError 0 (Err.user 7) ∉ (runTrace selNone esOpenErr).hist ∧
    ((runTrace selNone esOpenErr).subj 0).closed = true := by
  decide

/-- Claim C5, amended: when the openings stream errors with `e` on a live
subscription, the error is routed directly to the output stream — the
appended history is exactly the output error, so no window receives `e`
— and the subsequent teardown forcibly unsubscribes every remaining
window (a late subscriber to such a window observes the unsubscription
error, not `e`). -/
theorem c5_amended_openings_error (sel : O → Option Nat) (es : List (Ev T O)) (e : Nat)
    (h : (runTrace sel es).outStopped = false) :
    (step sel (runTrace sel es) (Ev.openError e)).hist =
        (runTrace sel es).hist ++ [Act.outError (.user e)] ∧
      (step sel (runTrace sel es) (Ev.openError e)).windows = [] ∧
      ∀ w ∈ (runTrace sel es).windows,
        ((step sel (runTrace sel es) (Ev.openError e)).subj w).closed = true ∧
        lateSubscribe ((step sel (runTrace sel es) (Ev.openError e)).subj w)
          = some (.lerror .objectUnsubscribed) := by
  rw [step_openError sel _ e h]
  refine ⟨?_, by simp, ?_⟩
  · rw [teardown_hist, outErrorSt_hist, h]
    simp
  · intro w hw
    have hw' : w ∈ (outErrorSt (Err.user e) (runTrace sel es)).windows := by
      rw [outErrorSt_windows]
      exact hw
    have hcl : ((teardown (outErrorSt (Err.user e) (runTrace sel es))).subj w).closed = true :=
      teardown_closed_mem _ w hw'
    exact ⟨hcl, by simp [lateSubscribe, hcl]⟩

/-- Witness for `c5_amended_openings_error`. -/
theorem c5_amended_openings_error_witness :
    (runTrace selNone esOpen).outStopped = false ∧
    ((step selNone (runTrace selNone esOpen) (Ev.openError 7)).hist =
        (runTrace selNone esOpen).hist ++ [Act.outError (.user 7)] ∧
      (step selNone (runTrace selNone esOpen) (Ev.openError 7)).windows = [] ∧
      ∀ w ∈ (runTrace selNone esOpen).windows,
        ((step selNone (runTrace selNone esOpen) (Ev.openError 7)).subj w).closed = true ∧
        lateSubscribe ((step selNone (runTrace selNone esOpen)
            (Ev.openError 7)).subj w) = some (.lerror .objectUnsubscribed)) :=
  ⟨by decide, c5_amended_openings_error selNone esOpen 7 (by decide)⟩

/-- Claim C6: in every reachable state, a window whose closing notifier
subscription is live was already emitted downstream (and, having been
created, was registered first — its id is below the id counter).  Since a
closing signal only has an effect when the window's closing association
is live (`step` on `closeSignal`/`closeDone`/`closeErrorEv` is a no-op
otherwise), a closing signal firing synchronously upon subscription can
never close a window before a downstream consumer could observe it. -/
theorem c6_emitted_before_closable (sel : O → Option Nat) (es : List (Ev T O)) (w : Nat)
    (h : w ∈ (runTrace sel es (T := T)).closingActive) :
    Act.emit w ∈ (runTrace sel es).hist ∧ w < (runTrace sel es).nextId :=
  ⟨(inv_runTrace sel es).active_emitted w h, (inv_runTrace sel es).active_lt w h⟩

/-- Witness for `c6_emitted_before_closable`. -/
theorem c6_emitted_before_closable_witness :
    0 ∈ (runTrace selNone esOpen).closingActive ∧
    (Act.emit 0 ∈ (runTrace selNone esOpen).hist ∧
      0 < (runTrace selNone esOpen).nextId) :=
  ⟨by decide, c6_emitted_before_closable selNone esOpen 0 (by decide)⟩

/-- Claim C7: when the closing selector throws synchronously for opening
value `v` on a live subscription, the freshly registered window (id
`nextId`) is errored together with the rest of the registry, the output
errors with the thrown error, the registry is left empty (not leaked),
and the new window was never emitted downstream. -/
theorem c7_selector_throw (sel : O → Option Nat) (es : List (Ev T O)) (v : O) (e : Nat)
    (h : (runTrace sel es).outStopped = false) (hsel : sel v = some e) :
    (step sel (runTrace sel es) (Ev.openNext v)).hist =
        (runTrace sel es).hist
          ++ ((runTrace sel es).windows ++ [(runTrace sel es).nextId]).map
              (fun u => Act.wError u (.user e))
          ++ [Act.outError (.user e)] ∧
      (step sel (runTrace sel es) (Ev.openNext v)).windows = [] ∧
      Act.emit (runTrace sel es).nextId ∉ (step sel (runTrace sel es) (Ev.openNext v)).hist ∧
      ((step sel (runTrace sel es) (Ev.openNext v)).subj
          (runTrace sel es).nextId).isStopped = true := by
  have hI := inv_runTrace sel es
  have hreg := inv_register _ hI h
  rw [step_openNext sel _ v h, openHandler_throw_spec sel v _ e hsel]
  refine ⟨handleError_hist (Err.user e)
      { runTrace sel es with
        windows := (runTrace sel es).windows ++ [(runTrace sel es).nextId],
        nextId := (runTrace sel es).nextId + 1 } h hreg.nodup hreg.mem_open,
    by simp, ?_, ?_⟩
  · rw [handleError_hist (Err.user e)
      { runTrace sel es with
        windows := (runTrace sel es).windows ++ [(runTrace sel es).nextId],
        nextId := (runTrace sel es).nextId + 1 } h hreg.nodup hreg.mem_open]
    intro hmem
    rcases List.mem_append.mp hmem with hmem | hmem
    · rcases List.mem_append.mp hmem with hmem | hmem
      · exact absurd (hI.emit_lt _ hmem) (lt_irrefl _)
      · simp at hmem
    · simp at hmem
  · exact handleError_isStopped_mem (.user e) _ _ (by simp)

/-- Witness for `c7_selector_throw`: opening value `99` throws under
`selThrow`, with one window already open. -/
theorem c7_selector_throw_witness :
    (runTrace selThrow esOpen).outStopped = false ∧ selThrow 99 = some 3 ∧
    ((step selThrow (runTrace selThrow esOpen) (Ev.openNext 99)).hist =
        (runTrace selThrow esOpen).hist
          ++ ((runTrace selThrow esOpen).windows
              ++ [(runTrace selThrow esOpen).nextId]).map
              (fun u => Act.wError u (.user 3))
          ++ [Act.outError (.user 3)] ∧
      (step selThrow (runTrace selThrow esOpen) (Ev.openNext 99)).windows = [] ∧
      Act.emit (runTrace selThrow esOpen).nextId
          ∉ (step selThrow (runTrace selThrow esOpen) (Ev.openNext 99)).hist ∧
      ((step selThrow (runTrace selThrow esOpen) (Ev.openNext 99)).subj
          (runTrace selThrow esOpen).nextId).isStopped = true) :=
  ⟨by decide, by decide, c7_selector_throw selThrow esOpen 99 3 (by decide) (by decide)⟩

/-- Claim C8: cancelling the output subscription of a live run signals
nothing further (the history is unchanged: no window is completed or
errored, nothing is emitted), empties the registry, leaves every
previously open window forcibly unsubscribed — a late subscriber
receives the unsubscription error immediately — and every subsequent
event is a no-op. -/
theorem c8_cancellation (sel : O → Option Nat) (es : List (Ev T O))
    (h : (runTrace sel es).outStopped = false) :
    (step sel (runTrace sel es) Ev.cancel).hist = (runTrace sel es).hist ∧
      (step sel (runTrace sel es) Ev.cancel).windows = [] ∧
      (∀ w ∈ (runTrace sel es).windows,
        ((step sel (runTrace sel es) Ev.cancel).subj w).closed = true ∧
        lateSubscribe ((step sel (runTrace sel es) Ev.cancel).subj w)
          = some (.lerror .objectUnsubscribed)) ∧
      ∀ e', step sel (step sel (runTrace sel es) Ev.cancel) e'
          = step sel (runTrace sel es) Ev.cancel := by
  rw [step_cancel sel _ h]
  refine ⟨teardown_hist _, by simp, ?_, ?_⟩
  · intro w hw
    have hcl : ((teardown { runTrace sel es with outStopped := true }).subj w).closed = true :=
      teardown_closed_mem _ w hw
    exact ⟨hcl, by simp [lateSubscribe, hcl]⟩
  · intro e'
    refine step_stopped sel _ e' ?_
    simp

/-- Witness for `c8_cancellation`. -/
theorem c8_cancellation_witness :
    (runTrace selNone esA).outStopped = false ∧
    ((step selNone (runTrace selNone esA) Ev.cancel).hist = (runTrace selNone esA).hist ∧
      (step selNone (runTrace selNone esA) Ev.cancel).windows = [] ∧
      (∀ w ∈ (runTrace selNone esA).windows,
        ((step selNone (runTrace selNone esA) Ev.cancel).subj w).closed = true ∧
        lateSubscribe ((step selNone (runTrace selNone esA) Ev.cancel).subj w)
          = some (.lerror .objectUnsubscribed)) ∧
      ∀ e', step selNone (step selNone (runTrace selNone esA) Ev.cancel) e'
          = step selNone (runTrace selNone esA) Ev.cancel) :=
  ⟨by decide, c8_cancellation selNone esA (by decide)⟩

/-- Claim C9, counterexample: fan-out iterates over a snapshot, but a
window removed reentrantly during the fan-out does NOT always receive the
value.  With windows `0` and `1` open, a value `5` arrives; window `0`'s
consumer reacts by firing window `1`'s closing notifier.  Window `1` was
in the snapshot and is removed during the fan-out — yet by the time the
loop reaches it its subject is already completed, so it never receives
`5`. -/
theorem c9_counterexample :
    1 ∈ sTwo.windows ∧
    Act.wComplete 1 ∈ (fanOutR selNone 5 reactsCloseLater sTwo).hist ∧
    1 ∉ (fanOutR selNone 5 reactsCloseLater sTwo).windows ∧
    Act.wNext 1 5 ∉ (fanOutR selNone 5 reactsCloseLater sTwo).hist := by
  decide

/-- Claim C9, amended: fan-out iterates over a copy of the registry taken
when the value arrives.  (a) A window registered reentrantly during the
fan-out (its id is at or above the state's id counter) never receives the
value being fanned out.  (b) A window of the snapshot does receive the
value provided it is still open when the loop reaches it — in
particular, when no reaction of an earlier snapshot window closes it or
raises a global error; a window whose own consumer closes it in reaction
has already received the value.  (A snapshot window closed by an earlier
window's reaction may miss the value, as the counterexample shows.) -/
theorem c9_amended_snapshot_fanout (sel : O → Option Nat) (v : T)
    (reacts : Nat → List (ROp O)) (s : St T)
    (hmemlt : ∀ u ∈ s.windows, u < s.nextId) :
    (∀ w v', s.nextId ≤ w →
        Act.wNext w v' ∉ (fanOutR sel v reacts s).hist.drop s.hist.length) ∧
    (∀ w l₁ l₂, s.windows = l₁ ++ w :: l₂ → s.outStopped = false →
      (s.subj w).isStopped = false →
      (∀ u ∈ l₁, ∀ op ∈ reacts u,
        op ≠ ROp.rclose w ∧ ∀ v'', op = ROp.ropen v'' → sel v'' = none) →
      Act.wNext w v ∈ (fanOutR sel v reacts s).hist) := by
  constructor
  · intro w v' hge hmem
    obtain ⟨t, e, m⟩ := fanOutR_hist_shape sel v reacts s
    rw [e, List.drop_left] at hmem
    obtain ⟨hw, _⟩ := m w v' hmem
    exact absurd (hmemlt w hw) (by omega)
  · intro w l₁ l₂ hsplit hst hopen hcond
    rw [fanOutR, if_neg (by simp [hst]), hsplit, List.foldl_append, List.foldl_cons]
    have hPX := fanFold_preserves sel v reacts w l₁ s ⟨hopen, hst⟩ hcond
    have hdel : Act.wNext w v ∈ (subjNextSt w v
        (l₁.foldl (fun st u => (reacts u).foldl (applyROp sel) (subjNextSt u v st)) s)).hist := by
      rw [subjNextSt_hist, hPX.1]
      simp
    refine histExt_mem (histExt_trans ?_ (histExt_fanFold sel v reacts l₂ _)) _ hdel
    exact (nnn_opsFold sel (reacts w) _).histExt

/-- Witness for `c9_amended_snapshot_fanout`: windows `0` and `1` open,
window `0` closes itself in reaction to the value; the reentrantly
created id `2` receives nothing, while window `1` still receives the
value. -/
theorem c9_amended_snapshot_fanout_witness :
    (∀ u ∈ sTwo.windows, u < sTwo.nextId) ∧
    Act.wNext 2 7 ∉ (fanOutR selNone 5 reactsCloseSelf sTwo).hist.drop sTwo.hist.length ∧
    Act.wNext 1 5 ∈ (fanOutR selNone 5 reactsCloseSelf sTwo).hist := by
  refine ⟨by decide, ?_, ?_⟩
  · exact (c9_amended_snapshot_fanout selNone 5 reactsCloseSelf sTwo (by decide)).1 2 7
      (by decide)
  · refine (c9_amended_snapshot_fanout selNone 5 reactsCloseSelf sTwo (by decide)).2 1 [0] []
      (by decide) (by decide) (by decide) ?_
    intro u hu op hop
    have hu' : u = 0 := by simpa using hu
    subst hu'
    have hop' : op = ROp.rclose 0 := by simpa [reactsCloseSelf] using hop
    subst hop'
    exact ⟨by simp, fun v'' hv => by simp at hv⟩

/-- Applying `closeWindow` is the identity on a state in which the window is
already gone from the registry and the closing association, and its
subject is stopped. -/
theorem closeWindow_noop (w : Nat) (s : St T) (h1 : w ∉ s.windows)
    (h2 : w ∉ s.closingActive) (h3 : (s.subj w).isStopped = true) :
    closeWindow w s = s := by
  apply St.ext <;>
    simp [closeWindow, subjCompleteSt, List.erase_of_not_mem h1,
      List.erase_of_not_mem h2, h3]

/-- Claim C10: the per-window close procedure is idempotent — on any state
in which the window occurs at most once in the registry and at most once
in the closing association (true of every reachable state), running
`closeWindow` a second time changes nothing: the registry, the window's
terminal state and the closing association all stay as the first
invocation left them. -/
theorem c10_close_idempotent (s : St T) (w : Nat)
    (h1 : s.windows.count w ≤ 1) (h2 : s.closingActive.count w ≤ 1) :
    closeWindow w (closeWindow w s) = closeWindow w s := by
  refine closeWindow_noop w _ ?_ ?_ (closeWindow_isStopped_self w s)
  · rw [closeWindow_windows]
    intro hmem
    have hpos : 0 < (s.windows.erase w).count w := List.count_pos_iff.mpr hmem
    rw [List.count_erase_self] at hpos
    omega
  · rw [closeWindow_closingActive]
    intro hmem
    have hpos : 0 < (s.closingActive.erase w).count w := List.count_pos_iff.mpr hmem
    rw [List.count_erase_self] at hpos
    omega

/-- Witness for `c10_close_idempotent`. -/
theorem c10_close_idempotent_witness :
    (runTrace selNone esOpen).windows.count 0 ≤ 1 ∧
    (runTrace selNone esOpen).closingActive.count 0 ≤ 1 ∧
    closeWindow 0 (closeWindow 0 (runTrace selNone esOpen))
      = closeWindow 0 (runTrace selNone esOpen) :=
  ⟨by decide, by decide,
    c10_close_idempotent (runTrace selNone esOpen) 0 (by decide) (by decide)⟩

/-! ### Scenario checks from the specification -/

/-- Overlapping windows: openings for windows `0` and `1`, values `1`,
`6`, `11`; window `0` closes between `6` and `11`, window `1` after
`11`.  Window `0` receives `{1, 6}`, window `1` receives `{6, 11}`. -/
theorem overlap_scenario :
    wvals 0 (runTrace selNone esOverlapTr).hist = [1, 6] ∧
    wvals 1 (runTrace selNone esOverlapTr).hist = [6, 11] ∧
    emits (runTrace selNone esOverlapTr).hist = [0, 1] := by
  decide

/-- The timeline scenario: two openings, three source values, the two
closings firing in order; the full observable history. -/
theorem timeline_scenario :
    (runTrace selNone esTimelineTr).hist =
      [Act.emit 0, .wNext 0 1, .emit 1, .wNext 0 2, .wNext 1 2,
        .wComplete 0, .wNext 1 4, .wComplete 1] := by
  decide

end WindowToggle
